import Mathlib

/-!
# RepoScan — verification of the Scan Orchestration & Remediation Pipeline

A shallow embedding of the core of the RepoScan repository
(`src/server/utils/security.ts`, `src/server/services/remediation.ts`,
`src/server/services/scanner.ts`, `src/server/storage.ts`) together with
theorems settling the specification claims about it.

JavaScript strings are modelled as Lean `String`s and string algorithms are
carried out on their character lists.  Node's POSIX path routines
(`path.normalize`, `path.resolve`, `path.join`, `path.sep = "/"`) are
reimplemented on segment lists, following the Node.js `normalizeString`
algorithm.  Fallible code (functions that `throw`) is modelled with
`Except String`.
-/

namespace RepoScan

/-- Split a character list on `'/'`; mirrors `"a/b".split("/")`-style
segmentation used by Node's path normalization (the result always has at
least one, possibly empty, segment). -/
def splitSlash : List Char → List (List Char)
  | [] => [[]]
  | c :: cs =>
    match splitSlash cs with
    | [] => [[]]
    | g :: gs => if c = '/' then [] :: g :: gs else (c :: g) :: gs

/-- The `".."` path segment. -/
def dotdot : List Char := ['.', '.']

/-- One step of Node's `normalizeString` segment processing: empty and `"."`
segments are dropped; `".."` pops the last real segment, or (when
`allowAbove` — i.e. for relative paths) is kept when there is nothing to
pop; other segments are pushed.  The stack is kept reversed. -/
def normStep (allowAbove : Bool) (stack : List (List Char)) (seg : List Char) : List (List Char) :=
  if seg = [] ∨ seg = ['.'] then stack
  else if seg = dotdot then
    match stack with
    | [] => if allowAbove then [dotdot] else []
    | t :: rest => if t = dotdot then dotdot :: t :: rest else rest
  else seg :: stack

/-- Node `normalizeString`: fold the segments through `normStep`. -/
def normSegs (allowAbove : Bool) (segs : List (List Char)) : List (List Char) :=
  (segs.foldl (normStep allowAbove) []).reverse

/-- Join segments with `'/'` (no leading separator). -/
def joinSegs : List (List Char) → List Char
  | [] => []
  | [s] => s
  | s :: t :: rest => s ++ '/' :: joinSegs (t :: rest)

/-- Node `path.posix.normalize`. -/
def normalizeJs (p : String) : String :=
  if p.data = [] then "."
  else
    let abs : Bool := p.data.head? == some '/'
    let trail : Bool := p.data.getLast? == some '/'
    let body := joinSegs (normSegs (!abs) (splitSlash p.data))
    if body = [] then
      if abs then "/" else if trail then "./" else "."
    else
      let body2 := if trail then body ++ ['/'] else body
      String.mk (if abs then '/' :: body2 else body2)

/-- The segment list of Node `path.posix.resolve cwd p`: an absolute
argument is segmented as is, a relative one is appended to `cwd` first;
`".."` segments above the root are discarded (`allowAbove = false`). -/
def resolveSegs (cwd p : String) : List (List Char) :=
  normSegs false (splitSlash (if p.data.head? == some '/' then p.data else cwd.data ++ '/' :: p.data))

/-- Node `path.posix.resolve` with a single argument, made explicit in the
process working directory `cwd` (assumed absolute). -/
def resolveAbs (cwd p : String) : String :=
  String.mk ('/' :: joinSegs (resolveSegs cwd p))

/-- JavaScript `String.prototype.startsWith`, character-wise. -/
def jsStartsWith (s pre : String) : Bool := pre.data.isPrefixOf s.data

/-- `SecurityUtils.validatePath` (src/server/utils/security.ts, lines 32-47):
rejects empty arguments, resolves both paths, and fails with a traversal
error unless the resolved file starts with `resolvedBase + path.sep` or
equals the resolved base. -/
def validatePathJs (cwd baseDirectory filePath : String) : Except String String :=
  if baseDirectory = "" ∨ filePath = "" then .error "Invalid path parameters"
  else
    let resolvedBase := resolveAbs cwd baseDirectory
    let resolvedFile := resolveAbs cwd filePath
    if ¬ (jsStartsWith resolvedFile (resolvedBase ++ "/") = true) ∧ resolvedFile ≠ resolvedBase then
      .error "Path traversal attempt detected"
    else .ok resolvedFile

/-- The character class `[a-zA-Z0-9\-_.]` of safe repository-name characters. -/
def isSafeNameChar (c : Char) : Bool :=
  ('a' ≤ c && c ≤ 'z') || ('A' ≤ c && c ≤ 'Z') || ('0' ≤ c && c ≤ '9') ||
    c == '-' || c == '_' || c == '.'

/-- The replacement `.replace(/^(\.\.[\/\\])+/, '')`: strip every leading
`"../"` or `"..\"` group. -/
def dropLeadingDotDotSeps : List Char → List Char
  | [] => []
  | [c] => [c]
  | [c1, c2] => [c1, c2]
  | c1 :: c2 :: c3 :: rest =>
    if c1 = '.' ∧ c2 = '.' ∧ (c3 = '/' ∨ c3 = '\\') then dropLeadingDotDotSeps rest
    else c1 :: c2 :: c3 :: rest

/-- `SecurityUtils.sanitizeRepositoryName` (src/server/utils/security.ts,
lines 11-27): reject empty input, normalize, strip leading parent-traversal
groups, replace unsafe characters with `'_'`, reject an empty result. -/
def sanitizeRepositoryName (name : String) : Except String String :=
  if name = "" then .error "Invalid repository name"
  else
    let sanitized := dropLeadingDotDotSeps (normalizeJs name).data
    let safeName := sanitized.map (fun c => if isSafeNameChar c then c else '_')
    if safeName = [] then .error "Repository name contains no valid characters"
    else .ok (String.mk safeName)

/-- Node `path.posix.join` of two parts: non-empty parts joined with `"/"`,
then normalized; `"."` when everything is empty. -/
def pathJoin (a b : String) : String :=
  if a = "" ∧ b = "" then "."
  else if a = "" then normalizeJs b
  else if b = "" then normalizeJs a
  else normalizeJs (String.mk (a.data ++ '/' :: b.data))

/-- The non-empty `'/'`-separated components of a path. -/
def pathComponents (p : String) : List (List Char) :=
  (splitSlash p.data).filter (fun seg => seg ≠ [])

/-- `child` is a proper descendant of `base`: the components of `base` are a
prefix of those of `child`, and the paths differ. -/
def isProperDescendant (child base : String) : Prop :=
  pathComponents base <+: pathComponents child ∧ child ≠ base

/-! ## Lemmas about the path machinery -/

/-- A normalized path segment: non-empty, not `"."`, not `".."`, and free of
separators. -/
def CleanSeg (seg : List Char) : Prop :=
  seg ≠ [] ∧ seg ≠ ['.'] ∧ seg ≠ dotdot ∧ '/' ∉ seg

lemma splitSlash_ne_nil (l : List Char) : splitSlash l ≠ [] := by
  induction l with
  | nil => simp [splitSlash]
  | cons c cs ih =>
    rcases h : splitSlash cs with _ | ⟨g, gs⟩
    · exact absurd h ih
    · simp only [splitSlash, h]
      split <;> simp

lemma not_slash_of_mem_splitSlash {l seg : List Char} (h : seg ∈ splitSlash l) : '/' ∉ seg := by
  induction l generalizing seg with
  | nil => simp [splitSlash] at h; simp [h]
  | cons c cs ih =>
    rcases hcs : splitSlash cs with _ | ⟨g, gs⟩
    · exact absurd hcs (splitSlash_ne_nil cs)
    · simp only [splitSlash, hcs] at h
      by_cases hc : c = '/'
      · simp [hc] at h
        rcases h with h | h | h
        · simp [h]
        · exact ih (hcs ▸ (h ▸ List.mem_cons_self g gs))
        · exact ih (hcs ▸ List.mem_cons_of_mem g h)
      · simp [hc] at h
        rcases h with h | h
        · subst h
          intro hmem
          rcases List.mem_cons.mp hmem with h1 | h1
          · exact hc h1.symm
          · exact ih (hcs ▸ List.mem_cons_self g gs) h1
        · exact ih (hcs ▸ List.mem_cons_of_mem g h)

lemma normStep_clean {stack : List (List Char)} {seg : List Char}
    (hs : ∀ s ∈ stack, CleanSeg s) (hseg : '/' ∉ seg) :
    ∀ s ∈ normStep false stack seg, CleanSeg s := by
  unfold normStep
  by_cases h1 : seg = [] ∨ seg = ['.']
  · simpa [h1] using hs
  · simp only [h1, if_false]
    by_cases h2 : seg = dotdot
    · simp only [h2, if_pos rfl]
      rcases stack with _ | ⟨t, rest⟩
      · simp
      · have ht : CleanSeg t := hs t (List.mem_cons_self t rest)
        simp only [ht.2.2.1, if_false]
        intro s hmem
        exact hs s (List.mem_cons_of_mem t hmem)
    · simp only [h2, if_false]
      intro s hmem
      rcases List.mem_cons.mp hmem with h | h
      · subst h
        push_neg at h1
        exact ⟨h1.1, h1.2, h2, hseg⟩
      · exact hs s h

lemma foldl_normStep_clean :
    ∀ (segs : List (List Char)) (stack : List (List Char)),
      (∀ s ∈ stack, CleanSeg s) → (∀ seg ∈ segs, '/' ∉ seg) →
      ∀ s ∈ segs.foldl (normStep false) stack, CleanSeg s := by
  intro segs
  induction segs with
  | nil => intro stack hs _ s hmem; exact hs s hmem
  | cons seg segs ih =>
    intro stack hs hsegs s hmem
    refine ih (normStep false stack seg) ?_ ?_ s hmem
    · exact normStep_clean hs (hsegs seg (List.mem_cons_self seg segs))
    · intro t ht; exact hsegs t (List.mem_cons_of_mem seg ht)

lemma resolveSegs_clean (cwd p : String) : ∀ s ∈ resolveSegs cwd p, CleanSeg s := by
  intro s hmem
  unfold resolveSegs normSegs at hmem
  rw [List.mem_reverse] at hmem
  exact foldl_normStep_clean _ [] (by simp) (fun seg h => not_slash_of_mem_splitSlash h) s hmem

lemma foldl_normStep_push :
    ∀ (segs : List (List Char)) (stack : List (List Char)),
      (∀ s ∈ segs, CleanSeg s) →
      segs.foldl (normStep false) stack = segs.reverse ++ stack := by
  intro segs
  induction segs with
  | nil => intro stack _; rfl
  | cons seg segs ih =>
    intro stack h
    have hc : CleanSeg seg := h seg (List.mem_cons_self seg segs)
    have hstep : normStep false stack seg = seg :: stack := by
      unfold normStep
      simp [hc.1, hc.2.1, hc.2.2.1]
    rw [List.foldl_cons, hstep, ih (seg :: stack) (fun s hs => h s (List.mem_cons_of_mem seg hs))]
    simp

lemma normSegs_clean_id {segs : List (List Char)} (h : ∀ s ∈ segs, CleanSeg s) :
    normSegs false segs = segs := by
  unfold normSegs
  rw [foldl_normStep_push segs [] h]
  simp

lemma splitSlash_no_slash {l : List Char} (h : '/' ∉ l) : splitSlash l = [l] := by
  induction l with
  | nil => rfl
  | cons c cs ih =>
    have hc : c ≠ '/' := fun hc => h (hc ▸ List.mem_cons_self c cs)
    have hcs : '/' ∉ cs := fun hm => h (List.mem_cons_of_mem c hm)
    simp only [splitSlash, ih hcs]
    simp [hc]

lemma splitSlash_append_slash {s m : List Char} (h : '/' ∉ s) :
    splitSlash (s ++ '/' :: m) = s :: splitSlash m := by
  induction s with
  | nil =>
    rcases hm : splitSlash m with _ | ⟨g, gs⟩
    · exact absurd hm (splitSlash_ne_nil m)
    · simp [splitSlash, hm]
  | cons c cs ih =>
    have hc : c ≠ '/' := fun hc => h (hc ▸ List.mem_cons_self c cs)
    have hcs : '/' ∉ cs := fun hm => h (List.mem_cons_of_mem c hm)
    have hih := ih hcs
    simp only [List.cons_append, splitSlash, List.append_eq]
    rw [hih]
    simp [hc]

lemma splitSlash_joinSegs {segs : List (List Char)} (hne : segs ≠ [])
    (h : ∀ s ∈ segs, '/' ∉ s) : splitSlash (joinSegs segs) = segs := by
  induction segs with
  | nil => exact absurd rfl hne
  | cons s rest ih =>
    rcases rest with _ | ⟨t, rest'⟩
    · exact splitSlash_no_slash (h s (List.mem_cons_self s []))
    · have hjoin : joinSegs (s :: t :: rest') = s ++ '/' :: joinSegs (t :: rest') := rfl
      rw [hjoin, splitSlash_append_slash (h s (List.mem_cons_self s _)),
        ih (by simp) (fun x hx => h x (List.mem_cons_of_mem s hx))]

lemma joinSegs_ne_nil {s : List Char} {rest : List (List Char)} (hs : s ≠ []) :
    joinSegs (s :: rest) ≠ [] := by
  rcases rest with _ | ⟨t, rest'⟩
  · simpa [joinSegs]
  · show s ++ '/' :: joinSegs (t :: rest') ≠ []
    simp

lemma splitSlash_cons_slash (l : List Char) : splitSlash ('/' :: l) = [] :: splitSlash l := by
  rcases h : splitSlash l with _ | ⟨g, gs⟩
  · exact absurd h (splitSlash_ne_nil l)
  · simp [splitSlash, h]

lemma normSegs_nil_cons (segs : List (List Char)) :
    normSegs false ([] :: segs) = normSegs false segs := by
  unfold normSegs
  rw [List.foldl_cons]
  have : normStep false [] [] = [] := by simp [normStep]
  rw [this]

lemma resolveAbs_idem (cwd p : String) : resolveAbs cwd (resolveAbs cwd p) = resolveAbs cwd p := by
  have hclean := resolveSegs_clean cwd p
  have hdata : (resolveAbs cwd p).data = '/' :: joinSegs (resolveSegs cwd p) := rfl
  have habs : ((resolveAbs cwd p).data.head? == some '/') = true := by rw [hdata]; rfl
  have hro : resolveSegs cwd (resolveAbs cwd p)
      = normSegs false (splitSlash ((resolveAbs cwd p).data)) := by
    unfold resolveSegs
    rw [if_pos habs]
  have hsegs : resolveSegs cwd (resolveAbs cwd p) = resolveSegs cwd p := by
    rw [hro, hdata, splitSlash_cons_slash, normSegs_nil_cons]
    rcases hs : resolveSegs cwd p with _ | ⟨g, gs⟩
    · decide
    · rw [hs] at hclean
      have hnoslash : ∀ x ∈ g :: gs, '/' ∉ x := fun x hx => (hclean x hx).2.2.2
      rw [splitSlash_joinSegs (by simp) hnoslash, normSegs_clean_id hclean]
  show String.mk ('/' :: joinSegs (resolveSegs cwd (resolveAbs cwd p))) = _
  rw [hsegs]
  rfl

lemma not_prefix_of_slash_mem {a m x : List Char} (hx : '/' ∉ x) :
    ¬ (a ++ '/' :: m) <+: x := by
  intro hpre
  exact hx (hpre.sublist.subset (by simp))

lemma slash_concat_isPre :
    ∀ {a : List Char} {b m₁ m₂ : List Char}, '/' ∉ a → '/' ∉ b →
      ((a ++ '/' :: m₁) <+: (b ++ '/' :: m₂) ↔ a = b ∧ m₁ <+: m₂) := by
  intro a
  induction a with
  | nil =>
    intro b m₁ m₂ _ hb
    rcases b with _ | ⟨c, b'⟩
    · simp [List.cons_prefix_cons]
    · have hc : c ≠ '/' := fun h => hb (h ▸ List.mem_cons_self c b')
      constructor
      · intro hpre
        rw [List.nil_append,
          show (c :: b') ++ '/' :: m₂ = c :: (b' ++ '/' :: m₂) from rfl,
          List.cons_prefix_cons] at hpre
        exact absurd hpre.1.symm hc
      · rintro ⟨h, _⟩
        exact absurd h (by simp)
  | cons d a' ih =>
    intro b m₁ m₂ ha hb
    have hd : d ≠ '/' := fun h => ha (h ▸ List.mem_cons_self d a')
    have ha' : '/' ∉ a' := fun h => ha (List.mem_cons_of_mem d h)
    rcases b with _ | ⟨c, b'⟩
    · simp [List.cons_prefix_cons, hd]
    · have hb' : '/' ∉ b' := fun h => hb (List.mem_cons_of_mem c h)
      simp only [List.cons_append, List.cons_prefix_cons, ih ha' hb', List.cons.injEq]
      tauto

lemma slash_concat_eq {a b m₁ m₂ : List Char} (ha : '/' ∉ a) (hb : '/' ∉ b)
    (h : a ++ '/' :: m₁ = b ++ '/' :: m₂) : a = b ∧ m₁ = m₂ := by
  have hpre : (a ++ '/' :: m₁) <+: (b ++ '/' :: m₂) := h ▸ List.prefix_refl _
  have hab := ((slash_concat_isPre ha hb).mp hpre).1
  subst hab
  refine ⟨rfl, ?_⟩
  have := List.append_cancel_left h
  injection this

lemma joinSegs_inj :
    ∀ {xs ys : List (List Char)}, (∀ s ∈ xs, CleanSeg s) → (∀ s ∈ ys, CleanSeg s) →
      joinSegs xs = joinSegs ys → xs = ys := by
  intro xs
  induction xs with
  | nil =>
    intro ys _ hys h
    rcases ys with _ | ⟨y, ys'⟩
    · rfl
    · exact absurd h.symm (joinSegs_ne_nil (hys y (List.mem_cons_self y ys')).1)
  | cons x xs' ih =>
    intro ys hxs hys h
    have hx : CleanSeg x := hxs x (List.mem_cons_self x xs')
    rcases ys with _ | ⟨y, ys'⟩
    · exact absurd h (joinSegs_ne_nil hx.1)
    · have hy : CleanSeg y := hys y (List.mem_cons_self y ys')
      rcases xs' with _ | ⟨x₂, xs''⟩ <;> rcases ys' with _ | ⟨y₂, ys''⟩
      · have hxy : x = y := h
        rw [hxy]
      · exfalso
        have : joinSegs [x] = x := rfl
        rw [this] at h
        have hslash : '/' ∈ x := by
          rw [h]
          show '/' ∈ y ++ '/' :: joinSegs (y₂ :: ys'')
          simp
        exact hx.2.2.2 hslash
      · exfalso
        have : joinSegs [y] = y := rfl
        rw [this] at h
        have hslash : '/' ∈ y := by
          rw [← h]
          show '/' ∈ x ++ '/' :: joinSegs (x₂ :: xs'')
          simp
        exact hy.2.2.2 hslash
      · have hx2 : joinSegs (x :: x₂ :: xs'') = x ++ '/' :: joinSegs (x₂ :: xs'') := rfl
        have hy2 : joinSegs (y :: y₂ :: ys'') = y ++ '/' :: joinSegs (y₂ :: ys'') := rfl
        rw [hx2, hy2] at h
        obtain ⟨h1, h2⟩ := slash_concat_eq hx.2.2.2 hy.2.2.2 h
        have := ih (fun s hs => hxs s (List.mem_cons_of_mem x hs))
          (fun s hs => hys s (List.mem_cons_of_mem y hs)) h2
        rw [h1, this]

lemma joinSegs_slash_isPre :
    ∀ (ys : List (List Char)) (y : List Char) (xs : List (List Char)),
      '/' ∉ y → (∀ s ∈ ys, '/' ∉ s) → (∀ s ∈ xs, '/' ∉ s) →
      ((joinSegs (y :: ys) ++ ['/']) <+: joinSegs xs ↔ ((y :: ys) <+: xs ∧ y :: ys ≠ xs)) := by
  intro ys
  induction ys with
  | nil =>
    intro y xs hy _ hxs
    rcases xs with _ | ⟨x, xs'⟩
    · simp [joinSegs, List.prefix_nil]
    · have hx : '/' ∉ x := hxs x (List.mem_cons_self x xs')
      rcases xs' with _ | ⟨x₂, xs''⟩
      · show (y ++ ['/']) <+: x ↔ _
        constructor
        · intro hpre
          exact absurd hpre (by simpa using not_prefix_of_slash_mem (a := y) (m := []) hx)
        · rintro ⟨hpre, hne⟩
          rw [List.cons_prefix_cons] at hpre
          exact absurd (by rw [hpre.1]) hne
      · show (y ++ ['/']) <+: (x ++ '/' :: joinSegs (x₂ :: xs'')) ↔ _
        have : (y ++ ['/'] : List Char) = y ++ '/' :: [] := rfl
        rw [this, slash_concat_isPre hy hx]
        simp [List.cons_prefix_cons]
  | cons z ys' ih =>
    intro y xs hy hys hxs
    have hz : '/' ∉ z := hys z (List.mem_cons_self z ys')
    have hys' : ∀ s ∈ ys', '/' ∉ s := fun s hs => hys s (List.mem_cons_of_mem z hs)
    have hjoin : joinSegs (y :: z :: ys') ++ ['/'] = y ++ '/' :: (joinSegs (z :: ys') ++ ['/']) := by
      show (y ++ '/' :: joinSegs (z :: ys')) ++ ['/'] = _
      simp
    rcases xs with _ | ⟨x, xs'⟩
    · rw [hjoin]
      show (y ++ '/' :: _) <+: ([] : List Char) ↔ _
      simp [List.prefix_nil]
    · have hx : '/' ∉ x := hxs x (List.mem_cons_self x xs')
      have hxs' : ∀ s ∈ xs', '/' ∉ s := fun s hs => hxs s (List.mem_cons_of_mem x hs)
      rcases xs' with _ | ⟨x₂, xs''⟩
      · rw [hjoin]
        show (y ++ '/' :: _) <+: x ↔ _
        constructor
        · intro hpre; exact absurd hpre (not_prefix_of_slash_mem hx)
        · rintro ⟨hpre, _⟩
          exfalso
          have := hpre.sublist.length_le
          simp at this
      · rw [hjoin]
        show (y ++ '/' :: (joinSegs (z :: ys') ++ ['/'])) <+: (x ++ '/' :: joinSegs (x₂ :: xs'')) ↔ _
        rw [slash_concat_isPre hy hx, ih z (x₂ :: xs'') hz hys' hxs']
        simp only [List.cons_prefix_cons, List.cons.injEq, ne_eq]
        constructor
        · rintro ⟨h1, h2, h3⟩
          exact ⟨⟨h1, h2⟩, fun hcon => h3 ⟨hcon.2.1, hcon.2.2⟩⟩
        · rintro ⟨⟨h1, h2⟩, h3⟩
          exact ⟨h1, h2, fun hcon => h3 ⟨h1, hcon.1, hcon.2⟩⟩

lemma jsStartsWith_iff (s pre : String) : jsStartsWith s pre = true ↔ pre.data <+: s.data :=
  List.isPrefixOf_iff_prefix

lemma resolveAbs_ne_empty (cwd p : String) : resolveAbs cwd p ≠ "" := by
  intro h
  have := congrArg String.data h
  simp [resolveAbs] at this

lemma resolveAbs_eq_iff (cwd p q : String) :
    resolveAbs cwd p = resolveAbs cwd q ↔ resolveSegs cwd p = resolveSegs cwd q := by
  constructor
  · intro h
    have hd : '/' :: joinSegs (resolveSegs cwd p) = '/' :: joinSegs (resolveSegs cwd q) :=
      congrArg String.data h
    have hj : joinSegs (resolveSegs cwd p) = joinSegs (resolveSegs cwd q) := by
      injection hd
    exact joinSegs_inj (resolveSegs_clean cwd p) (resolveSegs_clean cwd q) hj
  · intro h
    unfold resolveAbs
    rw [h]

lemma pathComponents_resolveAbs (cwd p : String) :
    pathComponents (resolveAbs cwd p) = resolveSegs cwd p := by
  have hclean := resolveSegs_clean cwd p
  unfold pathComponents
  have hd : (resolveAbs cwd p).data = '/' :: joinSegs (resolveSegs cwd p) := rfl
  rw [hd, splitSlash_cons_slash]
  rcases hs : resolveSegs cwd p with _ | ⟨g, gs⟩
  · decide
  · rw [hs] at hclean
    rw [splitSlash_joinSegs (by simp) (fun x hx => (hclean x hx).2.2.2)]
    rw [List.filter_cons_of_neg (by simp)]
    exact List.filter_eq_self.mpr (fun a ha => by simp [(hclean a ha).1])

lemma resolveAbs_eq_root_iff (cwd p : String) :
    resolveAbs cwd p = "/" ↔ resolveSegs cwd p = [] := by
  constructor
  · intro h
    have hd : '/' :: joinSegs (resolveSegs cwd p) = ['/'] := congrArg String.data h
    have hj : joinSegs (resolveSegs cwd p) = [] := by
      injection hd
    rcases hs : resolveSegs cwd p with _ | ⟨g, gs⟩
    · rfl
    · rw [hs] at hj
      exact absurd hj (joinSegs_ne_nil ((resolveSegs_clean cwd p g (hs ▸ List.mem_cons_self g gs)).1))
  · intro h
    unfold resolveAbs
    rw [h]
    rfl

lemma resolveAbs_startsWith_iff (cwd base file : String)
    (hb : resolveSegs cwd base ≠ []) :
    (jsStartsWith (resolveAbs cwd file) (resolveAbs cwd base ++ "/") = true ↔
      (resolveSegs cwd base <+: resolveSegs cwd file ∧
        resolveSegs cwd base ≠ resolveSegs cwd file)) := by
  rw [jsStartsWith_iff, String.data_append]
  have hdb : (resolveAbs cwd base).data = '/' :: joinSegs (resolveSegs cwd base) := rfl
  have hdf : (resolveAbs cwd file).data = '/' :: joinSegs (resolveSegs cwd file) := rfl
  rw [hdb, hdf]
  have hslash : ("/" : String).data = ['/'] := rfl
  rw [hslash]
  rcases hs : resolveSegs cwd base with _ | ⟨y, ys⟩
  · exact absurd hs hb
  · have hcb := resolveSegs_clean cwd base
    rw [hs] at hcb
    have hcf := resolveSegs_clean cwd file
    rw [show ('/' :: joinSegs (y :: ys)) ++ ['/'] = '/' :: (joinSegs (y :: ys) ++ ['/']) from rfl,
      List.cons_prefix_cons]
    simp only [true_and]
    rw [joinSegs_slash_isPre ys y (resolveSegs cwd file)
      (hcb y (List.mem_cons_self y ys)).2.2.2
      (fun s hsm => (hcb s (List.mem_cons_of_mem y hsm)).2.2.2)
      (fun s hsm => (hcf s hsm).2.2.2)]

/-- The guard condition of `validatePath`, named for reuse: the resolved file
equals the resolved base or extends its components. -/
lemma validatePathJs_ok_iff (cwd base file : String)
    (hbase : base ≠ "") (hfile : file ≠ "") (hroot : resolveAbs cwd base ≠ "/") :
    (validatePathJs cwd base file = .ok (resolveAbs cwd file) ↔
      (resolveAbs cwd file = resolveAbs cwd base ∨
        isProperDescendant (resolveAbs cwd file) (resolveAbs cwd base))) := by
  have hb : resolveSegs cwd base ≠ [] := by
    intro h
    exact hroot ((resolveAbs_eq_root_iff cwd base).mpr h)
  have hdesc : isProperDescendant (resolveAbs cwd file) (resolveAbs cwd base) ↔
      (resolveSegs cwd base <+: resolveSegs cwd file ∧
        resolveSegs cwd base ≠ resolveSegs cwd file) := by
    unfold isProperDescendant
    rw [pathComponents_resolveAbs, pathComponents_resolveAbs]
    constructor
    · rintro ⟨h1, h2⟩
      exact ⟨h1, fun hcon => h2 ((resolveAbs_eq_iff cwd file base).mpr hcon.symm)⟩
    · rintro ⟨h1, h2⟩
      exact ⟨h1, fun hcon => h2 ((resolveAbs_eq_iff cwd file base).mp hcon).symm⟩
  unfold validatePathJs
  rw [if_neg (by simp [hbase, hfile])]
  by_cases hsw : jsStartsWith (resolveAbs cwd file) (resolveAbs cwd base ++ "/") = true
  · rw [if_neg (by simp [hsw])]
    simp only [Except.ok.injEq, true_iff]
    right
    rw [hdesc]
    have := (resolveAbs_startsWith_iff cwd base file hb).mp hsw
    exact this
  · by_cases heq : resolveAbs cwd file = resolveAbs cwd base
    · rw [if_neg (by simp [heq])]
      simp [heq]
    · rw [if_pos ⟨hsw, heq⟩]
      constructor
      · intro hcon
        exact absurd hcon (by simp)
      · rintro (h | h)
        · exact absurd h heq
        · rw [hdesc] at h
          exact absurd ((resolveAbs_startsWith_iff cwd base file hb).mpr h) hsw

/-- **C1** (amended).  With non-empty arguments and a base that does not
resolve to the filesystem root `"/"`: `validatePath` resolves both arguments,
succeeds — returning the resolved candidate — exactly when the resolved
candidate equals the resolved base or is a proper (component-wise)
descendant of it, fails with a traversal error otherwise, and is idempotent
on its own results. -/
theorem claim_C1_amended (cwd base file : String)
    (hbase : base ≠ "") (hfile : file ≠ "") (hroot : resolveAbs cwd base ≠ "/") :
    (validatePathJs cwd base file = .ok (resolveAbs cwd file) ↔
      (resolveAbs cwd file = resolveAbs cwd base ∨
        isProperDescendant (resolveAbs cwd file) (resolveAbs cwd base))) ∧
    (¬ (resolveAbs cwd file = resolveAbs cwd base ∨
        isProperDescendant (resolveAbs cwd file) (resolveAbs cwd base)) →
      validatePathJs cwd base file = .error "Path traversal attempt detected") ∧
    (∀ r, validatePathJs cwd base file = .ok r →
      r = resolveAbs cwd file ∧ validatePathJs cwd base r = .ok r) := by
  have hmain := validatePathJs_ok_iff cwd base file hbase hfile hroot
  refine ⟨hmain, ?_, ?_⟩
  · intro hnot
    unfold validatePathJs
    rw [if_neg (by simp [hbase, hfile])]
    rw [if_pos ?_]
    push_neg at hnot
    have hb : resolveSegs cwd base ≠ [] :=
      fun h => hroot ((resolveAbs_eq_root_iff cwd base).mpr h)
    refine ⟨?_, hnot.1⟩
    intro hsw
    have hdesc := (resolveAbs_startsWith_iff cwd base file hb).mp hsw
    apply hnot.2
    unfold isProperDescendant
    rw [pathComponents_resolveAbs, pathComponents_resolveAbs]
    exact ⟨hdesc.1, fun hcon => hdesc.2 ((resolveAbs_eq_iff cwd file base).mp hcon).symm⟩
  · intro r hok
    have hr : r = resolveAbs cwd file := by
      unfold validatePathJs at hok
      rw [if_neg (by simp [hbase, hfile])] at hok
      by_cases hcond : ¬ (jsStartsWith (resolveAbs cwd file) (resolveAbs cwd base ++ "/") = true)
          ∧ resolveAbs cwd file ≠ resolveAbs cwd base
      · rw [if_pos hcond] at hok
        exact absurd hok (by simp)
      · rw [if_neg hcond] at hok
        injection hok with h
        exact h.symm
    refine ⟨hr, ?_⟩
    subst hr
    have hok' : validatePathJs cwd base file = .ok (resolveAbs cwd file) := hok
    have hcond := hmain.mp hok'
    have hfile' : resolveAbs cwd file ≠ "" := resolveAbs_ne_empty cwd file
    have hres : resolveAbs cwd (resolveAbs cwd file) = resolveAbs cwd file :=
      resolveAbs_idem cwd file
    have := (validatePathJs_ok_iff cwd base (resolveAbs cwd file) hbase hfile' hroot)
    rw [hres] at this
    exact this.mpr hcond

/-- **C1** (counterexample to the claim as stated).  Two concrete violations
of "for every candidate whose resolution is the base or a proper descendant,
`validatePath` returns the resolved path": the empty candidate `""`
resolves (via the working directory) to the base itself yet is rejected
with a parameter error, and with base `"/"` the proper descendant `"/etc"`
is rejected as a traversal attempt. -/
theorem claim_C1_counterexample :
    (resolveAbs "/b" "" = resolveAbs "/b" "/b" ∧
      validatePathJs "/b" "/b" "" = .error "Invalid path parameters") ∧
    (isProperDescendant (resolveAbs "/cwd" "/etc") (resolveAbs "/cwd" "/") ∧
      validatePathJs "/cwd" "/" "/etc" = .error "Path traversal attempt detected") := by
  refine ⟨⟨by decide, rfl⟩, ⟨⟨?_, by decide⟩, rfl⟩⟩
  rw [pathComponents_resolveAbs, pathComponents_resolveAbs]
  show resolveSegs "/cwd" "/" <+: resolveSegs "/cwd" "/etc"
  have h1 : resolveSegs "/cwd" "/" = [] := by decide
  rw [h1]
  exact List.nil_prefix

/-- **C1** (witness).  The amended theorem applied at concrete inputs. -/
theorem claim_C1_witness :
    validatePathJs "/cwd" "/base" "/base/sub" = .ok (resolveAbs "/cwd" "/base/sub") := by
  have h := claim_C1_amended "/cwd" "/base" "/base/sub" (by decide) (by decide) (by decide)
  exact h.1.mpr (Or.inr ⟨by rw [pathComponents_resolveAbs, pathComponents_resolveAbs]; decide,
    by decide⟩)

/-! ## Sanitization: idempotence of `sanitizeRepositoryName` -/

lemma mem_of_getLast?_eq {l : List Char} {c : Char} (h : l.getLast? = some c) : c ∈ l := by
  obtain ⟨hh, hcc⟩ := List.mem_getLast?_eq_getLast (Option.mem_def.mpr h)
  exact hcc ▸ List.getLast_mem hh

lemma mkString_ne_empty {l : List Char} (h : l ≠ []) : (String.mk l) ≠ "" := by
  intro hcon
  exact h (congrArg String.data hcon)

lemma safe_map_all_safe (l : List Char) :
    ∀ c ∈ l.map (fun c => if isSafeNameChar c then c else '_'), isSafeNameChar c = true := by
  intro c hc
  obtain ⟨c₀, _, heq⟩ := List.mem_map.mp hc
  subst heq
  by_cases h : isSafeNameChar c₀ = true
  · simpa [h]
  · simp only [h, if_false]
    rw [if_neg (by simpa using h)]
    decide

lemma safe_map_id {l : List Char} (h : ∀ c ∈ l, isSafeNameChar c = true) :
    l.map (fun c => if isSafeNameChar c then c else '_') = l := by
  induction l with
  | nil => rfl
  | cons c cs ih =>
    simp only [List.map_cons, if_pos (h c (List.mem_cons_self c cs))]
    rw [ih (fun d hd => h d (List.mem_cons_of_mem c hd))]

lemma not_slash_of_all_safe {l : List Char} (h : ∀ c ∈ l, isSafeNameChar c = true) :
    '/' ∉ l :=
  fun hm => absurd (h '/' hm) (by decide)

lemma not_backslash_of_all_safe {l : List Char} (h : ∀ c ∈ l, isSafeNameChar c = true) :
    '\\' ∉ l :=
  fun hm => absurd (h '\\' hm) (by decide)

lemma dropLeadingDotDotSeps_id {l : List Char} (h1 : '/' ∉ l) (h2 : '\\' ∉ l) :
    dropLeadingDotDotSeps l = l := by
  rcases l with _ | ⟨c1, _ | ⟨c2, _ | ⟨c3, rest⟩⟩⟩
  · rfl
  · rfl
  · rfl
  · have hc3 : ¬ (c3 = '/' ∨ c3 = '\\') := by
      rintro (h | h) <;> subst h
      · exact h1 (by simp)
      · exact h2 (by simp)
    show (if c1 = '.' ∧ c2 = '.' ∧ (c3 = '/' ∨ c3 = '\\') then _ else c1 :: c2 :: c3 :: rest) = _
    rw [if_neg (by tauto)]

lemma normalizeJs_fixed {l : List Char} (hne : l ≠ [])
    (hsafe : ∀ c ∈ l, isSafeNameChar c = true) : normalizeJs ⟨l⟩ = ⟨l⟩ := by
  by_cases hdot : l = ['.']
  · subst hdot; decide
  by_cases hdd : l = dotdot
  · subst hdd; decide
  have hslash : '/' ∉ l := not_slash_of_all_safe hsafe
  have habs : (l.head? == some '/') = false := by
    rcases l with _ | ⟨c, cs⟩
    · exact absurd rfl hne
    · have hc : c ≠ '/' := fun h => by
        subst h; exact absurd (hsafe _ (List.mem_cons_self _ _)) (by decide)
      simp [hc]
  have htrail : (l.getLast? == some '/') = false := by
    rcases hg : l.getLast? with _ | c
    · simp
    · have hc : c ≠ '/' := fun h => by
        subst h; exact absurd (hsafe _ (mem_of_getLast?_eq hg)) (by decide)
      simp [hc]
  have hstep : normStep true [] l = [l] := by
    unfold normStep
    rw [if_neg (by simp [hne, hdot]), if_neg hdd]
  have hsegs : normSegs true (splitSlash l) = [l] := by
    rw [splitSlash_no_slash hslash]
    unfold normSegs
    rw [List.foldl_cons, List.foldl_nil, hstep]
    rfl
  show normalizeJs (String.mk l) = String.mk l
  unfold normalizeJs
  rw [if_neg (show ¬((String.mk l).data = []) from hne)]
  simp only [habs, htrail, Bool.not_false, if_pos rfl]
  rw [hsegs]
  have hjoin : joinSegs [l] = l := rfl
  rw [hjoin]
  simp [hne]

/-- **C8** (confirmed).  `sanitizeRepositoryName` is idempotent: whenever it
succeeds, applying it to its own result succeeds and returns the result
unchanged. -/
theorem claim_C8_sanitize_idempotent (x y : String)
    (h : sanitizeRepositoryName x = .ok y) : sanitizeRepositoryName y = .ok y := by
  unfold sanitizeRepositoryName at h
  by_cases hx : x = ""
  · rw [if_pos hx] at h
    exact absurd h (by simp)
  rw [if_neg hx] at h
  simp only [] at h
  by_cases hempty :
      (dropLeadingDotDotSeps (normalizeJs x).data).map
        (fun c => if isSafeNameChar c then c else '_') = []
  · rw [if_pos hempty] at h
    exact absurd h (by simp)
  · rw [if_neg hempty] at h
    have hy : y = String.mk ((dropLeadingDotDotSeps (normalizeJs x).data).map
        (fun c => if isSafeNameChar c then c else '_')) := by
      injection h with h'
      exact h'.symm
    set m := (dropLeadingDotDotSeps (normalizeJs x).data).map
      (fun c => if isSafeNameChar c then c else '_') with hm
    have hsafe : ∀ c ∈ m, isSafeNameChar c = true := safe_map_all_safe _
    subst hy
    unfold sanitizeRepositoryName
    rw [if_neg (mkString_ne_empty hempty)]
    rw [normalizeJs_fixed hempty hsafe]
    rw [show (String.mk m).data = m from rfl]
    rw [dropLeadingDotDotSeps_id (not_slash_of_all_safe hsafe) (not_backslash_of_all_safe hsafe)]
    show (if List.map (fun c => if isSafeNameChar c then c else '_') m = []
        then Except.error "Repository name contains no valid characters"
        else Except.ok (String.mk (List.map (fun c => if isSafeNameChar c then c else '_') m)))
      = Except.ok (String.mk m)
    rw [safe_map_id hsafe]
    rw [if_neg hempty]

/-- **C8** (witness).  The idempotence theorem applied at the concrete input
`"My Repo"`, whose sanitization is `"My_Repo"`. -/
theorem claim_C8_witness : sanitizeRepositoryName "My_Repo" = .ok "My_Repo" :=
  claim_C8_sanitize_idempotent "My Repo" "My_Repo" rfl

/-! ## The positional line diff (`RemediationService.generateDiff`,
src/server/services/remediation.ts lines 138-192)

`generateDiff` walks the two line arrays in lockstep by index, accumulating
`-`/`+` lines per differing position; when the lines agree again it closes
the hunk with up to three lines of leading and trailing context.  The diff
string is a newline-join of emitted lines; we build the line list first
(`DiffLine`) and render it, so that its structure can be reasoned about. -/

/-- Split a character list on `'\n'` — `String.prototype.split("\n")`. -/
def splitNl : List Char → List (List Char)
  | [] => [[]]
  | c :: cs =>
    match splitNl cs with
    | [] => [[]]
    | g :: gs => if c = '\n' then [] :: g :: gs else (c :: g) :: gs

/-- Join line fragments with `'\n'` — `Array.prototype.join("\n")`. -/
def joinNl : List (List Char) → List Char
  | [] => []
  | [s] => s
  | s :: t :: rest => s ++ '\n' :: joinNl (t :: rest)

/-- `original.split('\n')` on strings. -/
def jsSplitLines (s : String) : List String := (splitNl s.data).map String.mk

/-- `lines.join('\n')` on strings. -/
def jsJoinLines (ls : List String) : String := String.mk (joinNl (ls.map String.data))

/-- One emitted line of the unified diff. -/
inductive DiffLine where
  | fileHead (s : String)
  | hunkHead (origStart origLen newStart newLen : Nat)
  | ctx (s : String)
  | del (s : String)
  | add (s : String)
deriving DecidableEq, Repr

/-- The `-`/`+` lines pushed for one differing index: the removed original
line (when the index is in range of the original) followed by the added
fixed line (when in range of the fixed content). -/
def delAddBlock (o f : List String) (j : Nat) : List DiffLine :=
  (match o.get? j with | some s => [DiffLine.del s] | none => []) ++
    (match f.get? j with | some s => [DiffLine.add s] | none => [])

/-- The accumulated hunk lines for the run of indices `[j, j+n)`. -/
def interleaved (o f : List String) (j n : Nat) : List DiffLine :=
  (List.range' j n).flatMap (delAddBlock o f)

/-- Closing a hunk at equal index `i` (`hunkStart` is the first differing
index): header `@@ -(cb+1),(i-cb) +(cb+1),(i-cb) @@` with
`cb = max 0 (hunkStart - 3)`, then the leading context lines
`[cb, hunkStart)`, the accumulated hunk lines, and trailing context
`[i, min (length-1) (i+2)]` restricted to the original's range. -/
def closeHunk (o : List String) (hunkStart i : Nat) (hunkLines : List DiffLine) : List DiffLine :=
  [DiffLine.hunkHead (hunkStart - 3 + 1) (i - (hunkStart - 3)) (hunkStart - 3 + 1)
      (i - (hunkStart - 3))]
    ++ (List.range' (hunkStart - 3) (hunkStart - (hunkStart - 3))).map
      (fun j => DiffLine.ctx ((o.get? j).getD "undefined"))
    ++ hunkLines
    ++ ((List.range' i (min (o.length - 1) (i + 2) + 1 - i)).filter
        (fun j => decide (j < o.length))).map
      (fun j => DiffLine.ctx ((o.get? j).getD "undefined"))

/-- The final-hunk emission after the loop: header
`@@ -(s+1),(origLen-s) +(s+1),(fixedLen-s) @@` followed by the accumulated
hunk lines, when a hunk is open. -/
def finalHunk (o f : List String) (hunkStart : Option Nat) (hunkLines : List DiffLine) :
    List DiffLine :=
  if hunkStart.isSome ∧ hunkLines ≠ [] then
    [DiffLine.hunkHead (hunkStart.getD 0 + 1) (o.length - hunkStart.getD 0)
        (hunkStart.getD 0 + 1) (f.length - hunkStart.getD 0)]
      ++ hunkLines
  else []

/-- The `for (let i = 0; i < maxLines; i++)` loop of `generateDiff`, with
the remaining iteration count as structural fuel (`fuel = maxLines - i`)
and the mutable `hunkStart`/`hunkLines` as arguments. -/
def diffLoop (o f : List String) : Nat → Nat → Option Nat → List DiffLine → List DiffLine
  | _, 0, hunkStart, hunkLines => finalHunk o f hunkStart hunkLines
  | i, Nat.succ fuel, hunkStart, hunkLines =>
    if o.get? i ≠ f.get? i then
      diffLoop o f (i + 1) fuel (some (hunkStart.getD i)) (hunkLines ++ delAddBlock o f i)
    else if hunkStart.isSome ∧ hunkLines ≠ [] then
      closeHunk o (hunkStart.getD 0) i hunkLines ++ diffLoop o f (i + 1) fuel none []
    else
      diffLoop o f (i + 1) fuel hunkStart hunkLines

/-- `generateDiff` at the line level: the two file-header lines followed by
the loop's emissions. -/
def genDiffLines (o f : List String) (filename : String) : List DiffLine :=
  [DiffLine.fileHead ("--- a/" ++ filename), DiffLine.fileHead ("+++ b/" ++ filename)]
    ++ diffLoop o f 0 (max o.length f.length) none []

/-- Rendering one diff line as emitted by the source (`diff += ...`). -/
def renderDiffLine : DiffLine → String
  | .fileHead s => s ++ "\n"
  | .hunkHead a b c d =>
    "@@ -" ++ toString a ++ "," ++ toString b ++ " +" ++ toString c ++ "," ++ toString d ++ " @@\n"
  | .ctx s => " " ++ s ++ "\n"
  | .del s => "-" ++ s ++ "\n"
  | .add s => "+" ++ s ++ "\n"

/-- `RemediationService.generateDiff`: the diff text. -/
def generateDiff (original fixed filename : String) : String :=
  String.join ((genDiffLines (jsSplitLines original) (jsSplitLines fixed) filename).map
    renderDiffLine)

/-! ### Applying a unified diff (standard semantics) -/

def isCtxLine : DiffLine → Bool
  | .ctx _ => true
  | _ => false

def isDelLine : DiffLine → Bool
  | .del _ => true
  | _ => false

def isAddLine : DiffLine → Bool
  | .add _ => true
  | _ => false

/-- A parsed hunk: the four header numbers and the body lines. -/
structure Hunk where
  origStart : Nat
  origLen : Nat
  newStart : Nat
  newLen : Nat
  body : List DiffLine
deriving DecidableEq, Repr

/-- Parser state: completed hunks plus the currently open hunk. -/
def parseStep (st : Option (List Hunk × Option Hunk)) (line : DiffLine) :
    Option (List Hunk × Option Hunk) :=
  match st, line with
  | none, _ => none
  | some (done, cur), .hunkHead a b c d =>
    some ((match cur with | some h => done ++ [h] | none => done), some ⟨a, b, c, d, []⟩)
  | some (done, some h), .ctx s => some (done, some { h with body := h.body ++ [.ctx s] })
  | some (done, some h), .del s => some (done, some { h with body := h.body ++ [.del s] })
  | some (done, some h), .add s => some (done, some { h with body := h.body ++ [.add s] })
  | some (_, some _), .fileHead _ => none
  | some (_, none), _ => none

/-- Group the diff lines following the file headers into hunks; fails on a
body line outside any hunk or a stray file header. -/
def parseHunks (ls : List DiffLine) : Option (List Hunk) :=
  match ls.foldl parseStep (some ([], none)) with
  | none => none
  | some (done, some h) => some (done ++ [h])
  | some (done, none) => some done

/-- Process the body of one hunk: a context line must match the original and
is copied, a removed line must match the original and is dropped, an added
line is emitted.  Returns the new original position and output. -/
def applyBody (orig : List String) : Nat → List String → List DiffLine →
    Option (Nat × List String)
  | p, out, [] => some (p, out)
  | p, out, .ctx s :: rest =>
    if orig.get? p = some s then applyBody orig (p + 1) (out ++ [s]) rest else none
  | p, out, .del s :: rest =>
    if orig.get? p = some s then applyBody orig (p + 1) out rest else none
  | p, out, .add s :: rest => applyBody orig p (out ++ [s]) rest
  | _, _, .fileHead _ :: _ => none
  | _, _, .hunkHead _ _ _ _ :: _ => none

/-- Apply one hunk at the position its header names, after validating the
header lengths against the body (standard unified-diff semantics: the
original length counts context and removed lines, the new length context
and added lines) and copying the unchanged lines before the hunk. -/
def applyHunk (orig : List String) (p : Nat) (out : List String) (h : Hunk) :
    Option (Nat × List String) :=
  if h.origLen = (h.body.countP isCtxLine) + (h.body.countP isDelLine) ∧
      h.newLen = (h.body.countP isCtxLine) + (h.body.countP isAddLine) ∧
      1 ≤ h.origStart ∧ p ≤ h.origStart - 1 ∧ h.origStart - 1 ≤ orig.length then
    applyBody orig (h.origStart - 1) (out ++ (orig.drop p).take (h.origStart - 1 - p)) h.body
  else none

/-- Apply a list of hunks in order, then copy the remaining lines. -/
def applyHunksList (orig : List String) : Nat → List String → List Hunk → Option (List String)
  | p, out, [] => some (out ++ orig.drop p)
  | p, out, h :: rest =>
    match applyHunk orig p out h with
    | some (p', out') => applyHunksList orig p' out' rest
    | none => none

/-- Apply a produced diff (two file-header lines, then hunks) to the
original lines. -/
def applyDiff (orig : List String) (diff : List DiffLine) : Option (List String) :=
  match diff with
  | .fileHead _ :: .fileHead _ :: rest =>
    match parseHunks rest with
    | some hs => applyHunksList orig 0 [] hs
    | none => none
  | _ => none

/-- Scans the diff for a removed (`-`) line occurring after an added (`+`)
line within the same hunk — impossible if every hunk listed all its removed
lines before its added lines, as the specification asserts. -/
def hasDelAfterAdd : List DiffLine → Bool → Bool
  | [], _ => false
  | .hunkHead _ _ _ _ :: rest, _ => hasDelAfterAdd rest false
  | .add _ :: rest, _ => hasDelAfterAdd rest true
  | .del _ :: rest, seenAdd => seenAdd || hasDelAfterAdd rest seenAdd
  | _ :: rest, seenAdd => hasDelAfterAdd rest seenAdd

/-! ### Lemmas about the diff machinery -/

def isBodyLine (l : DiffLine) : Bool := isCtxLine l || isDelLine l || isAddLine l

lemma interleaved_zero (o f : List String) (j : Nat) : interleaved o f j 0 = [] := rfl

lemma interleaved_succ_left (o f : List String) (j n : Nat) :
    interleaved o f j (n + 1) = delAddBlock o f j ++ interleaved o f (j + 1) n := by
  unfold interleaved
  rw [List.range'_succ]
  rfl

lemma interleaved_succ_right (o f : List String) (j n : Nat) :
    interleaved o f j (n + 1) = interleaved o f j n ++ delAddBlock o f (j + n) := by
  unfold interleaved
  rw [List.range'_concat, List.flatMap_append]
  simp

lemma delAddBlock_ne_nil {o f : List String} {j : Nat} (h : j < o.length ∨ j < f.length) :
    delAddBlock o f j ≠ [] := by
  unfold delAddBlock
  rcases h with h | h
  · rcases hg : o.get? j with _ | s
    · exact absurd (List.get?_eq_none.mp hg) (by omega)
    · simp
  · rcases hg : f.get? j with _ | s
    · exact absurd (List.get?_eq_none.mp hg) (by omega)
    · rcases o.get? j with _ | t <;> simp

lemma interleaved_ne_nil {o f : List String} {j n : Nat}
    (h : j < o.length ∨ j < f.length) (hn : 0 < n) : interleaved o f j n ≠ [] := by
  rcases n with _ | n
  · omega
  · rw [interleaved_succ_left]
    intro hcon
    exact delAddBlock_ne_nil h (by
      rcases List.append_eq_nil.mp hcon with ⟨h1, _⟩
      exact h1)

lemma countP_delAddBlock_del (o f : List String) (j : Nat) :
    (delAddBlock o f j).countP isDelLine = if j < o.length then 1 else 0 := by
  unfold delAddBlock
  rcases hg : o.get? j with _ | s
  · have hlen := List.get?_eq_none.mp hg
    rw [if_neg (by omega)]
    rcases f.get? j with _ | t <;> simp [List.countP, List.countP.go, isDelLine]
  · have hlen : j < o.length := by
      by_contra hcon
      rw [List.get?_eq_none.mpr (by omega)] at hg
      exact absurd hg (by simp)
    rw [if_pos hlen]
    rcases f.get? j with _ | t <;>
      simp [List.countP, List.countP.go, isDelLine, isAddLine]

lemma countP_delAddBlock_add (o f : List String) (j : Nat) :
    (delAddBlock o f j).countP isAddLine = if j < f.length then 1 else 0 := by
  unfold delAddBlock
  rcases hgf : f.get? j with _ | t
  · have hlen := List.get?_eq_none.mp hgf
    rw [if_neg (by omega)]
    rcases o.get? j with _ | s <;> simp [List.countP, List.countP.go, isAddLine, isDelLine]
  · have hlen : j < f.length := by
      by_contra hcon
      rw [List.get?_eq_none.mpr (by omega)] at hgf
      exact absurd hgf (by simp)
    rw [if_pos hlen]
    rcases o.get? j with _ | s <;>
      simp [List.countP, List.countP.go, isAddLine, isDelLine]

lemma countP_delAddBlock_ctx (o f : List String) (j : Nat) :
    (delAddBlock o f j).countP isCtxLine = 0 := by
  unfold delAddBlock
  rcases o.get? j with _ | s <;> rcases f.get? j with _ | t <;>
    simp [List.countP, List.countP.go, isCtxLine]

lemma countP_interleaved_del (o f : List String) :
    ∀ (n j : Nat), (interleaved o f j n).countP isDelLine
      = min (j + n) o.length - min j o.length := by
  intro n
  induction n with
  | zero => intro j; simp [interleaved_zero]
  | succ n ih =>
    intro j
    rw [interleaved_succ_left, List.countP_append, countP_delAddBlock_del, ih (j + 1)]
    by_cases h : j < o.length <;> simp [h] <;> omega

lemma countP_interleaved_add (o f : List String) :
    ∀ (n j : Nat), (interleaved o f j n).countP isAddLine
      = min (j + n) f.length - min j f.length := by
  intro n
  induction n with
  | zero => intro j; simp [interleaved_zero]
  | succ n ih =>
    intro j
    rw [interleaved_succ_left, List.countP_append, countP_delAddBlock_add, ih (j + 1)]
    by_cases h : j < f.length <;> simp [h] <;> omega

lemma countP_interleaved_ctx (o f : List String) :
    ∀ (n j : Nat), (interleaved o f j n).countP isCtxLine = 0 := by
  intro n
  induction n with
  | zero => intro j; simp [interleaved_zero]
  | succ n ih =>
    intro j
    rw [interleaved_succ_left, List.countP_append, countP_delAddBlock_ctx, ih (j + 1)]

lemma bodyLine_delAddBlock (o f : List String) (j : Nat) :
    ∀ l ∈ delAddBlock o f j, isBodyLine l = true := by
  intro l hl
  unfold delAddBlock at hl
  rcases hg : o.get? j with _ | s <;> rcases hgf : f.get? j with _ | t <;>
      rw [hg, hgf] at hl
  · simp at hl
  · simp at hl
    subst hl
    rfl
  · simp at hl
    subst hl
    rfl
  · simp at hl
    rcases hl with h | h <;> subst h <;> rfl

lemma bodyLine_interleaved (o f : List String) (j n : Nat) :
    ∀ l ∈ interleaved o f j n, isBodyLine l = true := by
  intro l hl
  unfold interleaved at hl
  obtain ⟨t, _, hmem⟩ := List.mem_flatMap.mp hl
  exact bodyLine_delAddBlock o f t l hmem

lemma parseStep_body (done : List Hunk) (h : Hunk) :
    ∀ (body : List DiffLine), (∀ l ∈ body, isBodyLine l = true) →
      body.foldl parseStep (some (done, some h)) =
        some (done, some { h with body := h.body ++ body }) := by
  intro body
  induction body generalizing h with
  | nil => intro _; simp
  | cons l rest ih =>
    intro hall
    have hl := hall l (List.mem_cons_self l rest)
    have hrest : ∀ x ∈ rest, isBodyLine x = true :=
      fun x hx => hall x (List.mem_cons_of_mem l hx)
    rcases l with s | ⟨a, b, c, d⟩ | s | s | s
    · simp [isBodyLine, isCtxLine, isDelLine, isAddLine] at hl
    · simp [isBodyLine, isCtxLine, isDelLine, isAddLine] at hl
    · rw [List.foldl_cons]
      show List.foldl parseStep (some (done, some { h with body := h.body ++ [.ctx s] })) rest = _
      rw [ih _ hrest]
      simp
    · rw [List.foldl_cons]
      show List.foldl parseStep (some (done, some { h with body := h.body ++ [.del s] })) rest = _
      rw [ih _ hrest]
      simp
    · rw [List.foldl_cons]
      show List.foldl parseStep (some (done, some { h with body := h.body ++ [.add s] })) rest = _
      rw [ih _ hrest]
      simp

lemma parseHunks_single (a b c d : Nat) (body : List DiffLine)
    (hbody : ∀ l ∈ body, isBodyLine l = true) :
    parseHunks (DiffLine.hunkHead a b c d :: body) = some [⟨a, b, c, d, body⟩] := by
  unfold parseHunks
  rw [List.foldl_cons]
  have hstep : parseStep (some ([], none)) (DiffLine.hunkHead a b c d)
      = some ([], some ⟨a, b, c, d, []⟩) := rfl
  rw [hstep, parseStep_body [] ⟨a, b, c, d, []⟩ body hbody]
  rfl

lemma parseHunks_nil : parseHunks [] = some [] := rfl

lemma applyBody_interleaved (o f : List String) :
    ∀ (n j : Nat) (out : List String),
      applyBody o (min j o.length) out (interleaved o f j n) =
        some (min (j + n) o.length,
          out ++ (List.range' j n).filterMap (fun t => f.get? t)) := by
  intro n
  induction n with
  | zero =>
    intro j out
    simp [interleaved_zero, applyBody]
  | succ n ih =>
    intro j out
    rw [interleaved_succ_left]
    unfold delAddBlock
    rcases hg : o.get? j with _ | s <;> rcases hgf : f.get? j with _ | t <;> dsimp only
    · have hlen := List.get?_eq_none.mp hg
      have hrange : (List.range' j (n + 1)).filterMap (fun t => f.get? t)
          = (List.range' (j + 1) n).filterMap (fun t => f.get? t) := by
        rw [List.range'_succ, List.filterMap_cons, hgf]
      rw [hrange]
      simp only [List.nil_append]
      have h1 : min j o.length = min (j + 1) o.length := by omega
      rw [h1, ih (j + 1) out]
      have h2 : j + 1 + n = j + (n + 1) := by omega
      rw [h2]
    · have hlen := List.get?_eq_none.mp hg
      have hrange : (List.range' j (n + 1)).filterMap (fun t => f.get? t)
          = t :: (List.range' (j + 1) n).filterMap (fun t => f.get? t) := by
        rw [List.range'_succ, List.filterMap_cons, hgf]
      rw [hrange]
      simp only [List.nil_append, List.singleton_append]
      rw [show applyBody o (min j o.length) out (DiffLine.add t :: interleaved o f (j + 1) n)
          = applyBody o (min j o.length) (out ++ [t]) (interleaved o f (j + 1) n) from rfl]
      have h1 : min j o.length = min (j + 1) o.length := by omega
      rw [h1, ih (j + 1) (out ++ [t])]
      have h2 : j + 1 + n = j + (n + 1) := by omega
      rw [h2]
      simp [List.append_assoc]
    · have hlen : j < o.length := by
        by_contra hcon
        rw [List.get?_eq_none.mpr (by omega)] at hg
        exact absurd hg (by simp)
      have hrange : (List.range' j (n + 1)).filterMap (fun t => f.get? t)
          = (List.range' (j + 1) n).filterMap (fun t => f.get? t) := by
        rw [List.range'_succ, List.filterMap_cons, hgf]
      rw [hrange]
      simp only [List.append_nil, List.singleton_append]
      have hmin : min j o.length = j := by omega
      rw [hmin]
      rw [show applyBody o j out (DiffLine.del s :: interleaved o f (j + 1) n)
          = if o.get? j = some s then applyBody o (j + 1) out (interleaved o f (j + 1) n)
            else none from rfl]
      rw [if_pos hg]
      have hih := ih (j + 1) out
      rw [show min (j + 1) o.length = j + 1 from by omega] at hih
      rw [hih]
      have h2 : j + 1 + n = j + (n + 1) := by omega
      rw [h2]
    · have hlen : j < o.length := by
        by_contra hcon
        rw [List.get?_eq_none.mpr (by omega)] at hg
        exact absurd hg (by simp)
      have hrange : (List.range' j (n + 1)).filterMap (fun t => f.get? t)
          = t :: (List.range' (j + 1) n).filterMap (fun t => f.get? t) := by
        rw [List.range'_succ, List.filterMap_cons, hgf]
      rw [hrange]
      simp only [List.nil_append, List.singleton_append, List.cons_append]
      have hmin : min j o.length = j := by omega
      rw [hmin]
      rw [show applyBody o j out
            (DiffLine.del s :: DiffLine.add t :: interleaved o f (j + 1) n)
          = if o.get? j = some s then
              applyBody o (j + 1) (out ++ [t]) (interleaved o f (j + 1) n)
            else none from rfl]
      rw [if_pos hg]
      have hih := ih (j + 1) (out ++ [t])
      rw [show min (j + 1) o.length = j + 1 from by omega] at hih
      rw [hih]
      have h2 : j + 1 + n = j + (n + 1) := by omega
      rw [h2]
      simp [List.append_assoc]

lemma filterMap_get?_range' (f : List String) :
    ∀ (n j : Nat), f.length ≤ j + n →
      (List.range' j n).filterMap (fun t => f.get? t) = f.drop j := by
  intro n
  induction n with
  | zero =>
    intro j h
    simp [List.drop_eq_nil_of_le (by omega : f.length ≤ j)]
  | succ n ih =>
    intro j h
    rw [List.range'_succ, List.filterMap_cons]
    by_cases hj : j < f.length
    · have hg : f.get? j = some f[j] := by
        rw [List.get?_eq_getElem?]
        exact List.getElem?_eq_some_iff.mpr ⟨hj, rfl⟩
      rw [hg, ih (j + 1) (by omega), List.drop_eq_getElem_cons hj]
    · have hg : f.get? j = none := List.get?_eq_none.mpr (by omega)
      rw [hg, ih (j + 1) (by omega), List.drop_eq_nil_of_le (by omega),
        List.drop_eq_nil_of_le (by omega)]

lemma take_eq_of_get?_eq {o f : List String} {k : Nat}
    (heq : ∀ j, j < k → o.get? j = f.get? j) : o.take k = f.take k := by
  apply List.ext_get?
  intro n
  by_cases hn : n < k
  · rw [List.get?_take hn, List.get?_take hn, heq n hn]
  · rw [List.get?_eq_none.mpr (by simp; omega), List.get?_eq_none.mpr (by simp; omega)]

lemma interleaved_one (o f : List String) (k : Nat) :
    interleaved o f k 1 = delAddBlock o f k := by
  unfold interleaved
  simp

lemma diffLoop_run_tail (o f : List String) (k : Nat)
    (hk : k < max o.length f.length)
    (hrun : ∀ j, k ≤ j → j < max o.length f.length → o.get? j ≠ f.get? j) :
    ∀ (fuel i : Nat), i + fuel = max o.length f.length → k ≤ i →
      diffLoop o f i fuel (some k) (interleaved o f k (i - k)) =
        [DiffLine.hunkHead (k + 1) (o.length - k) (k + 1) (f.length - k)]
          ++ interleaved o f k (max o.length f.length - k) := by
  intro fuel
  induction fuel with
  | zero =>
    intro i hif hki
    have hi : i = max o.length f.length := by omega
    subst hi
    show finalHunk o f (some k) (interleaved o f k (max o.length f.length - k)) = _
    unfold finalHunk
    rw [if_pos ⟨by simp, interleaved_ne_nil (by omega) (by omega)⟩]
    simp
  | succ fuel ih =>
    intro i hif hki
    have hi : i < max o.length f.length := by omega
    simp only [diffLoop]
    rw [if_pos (hrun i hki hi)]
    have hstep : interleaved o f k (i - k) ++ delAddBlock o f i
        = interleaved o f k (i + 1 - k) := by
      have h1 : i + 1 - k = (i - k) + 1 := by omega
      rw [h1, interleaved_succ_right]
      have h2 : k + (i - k) = i := by omega
      rw [h2]
    show diffLoop o f (i + 1) fuel (some k) (interleaved o f k (i - k) ++ delAddBlock o f i) = _
    rw [hstep]
    exact ih (i + 1) (by omega) (by omega)

lemma diffLoop_pre_tail (o f : List String) (k : Nat)
    (hkm : k ≤ max o.length f.length)
    (heq : ∀ j, j < k → o.get? j = f.get? j)
    (hrun : ∀ j, k ≤ j → j < max o.length f.length → o.get? j ≠ f.get? j) :
    ∀ (fuel i : Nat), i + fuel = max o.length f.length → i ≤ k →
      diffLoop o f i fuel none [] =
        if k = max o.length f.length then []
        else
          [DiffLine.hunkHead (k + 1) (o.length - k) (k + 1) (f.length - k)]
            ++ interleaved o f k (max o.length f.length - k) := by
  intro fuel
  induction fuel with
  | zero =>
    intro i hif hik
    have hkeq : k = max o.length f.length := by omega
    rw [if_pos hkeq]
    rfl
  | succ fuel ih =>
    intro i hif hik
    have hi : i < max o.length f.length := by omega
    by_cases hieq : i = k
    · subst hieq
      rw [if_neg (by omega)]
      simp only [diffLoop]
      rw [if_pos (hrun i (le_refl i) hi)]
      show diffLoop o f (i + 1) fuel (some i) ([] ++ delAddBlock o f i) = _
      have hint : delAddBlock o f i = interleaved o f i (i + 1 - i) := by
        rw [show i + 1 - i = 1 from by omega, interleaved_one]
      rw [List.nil_append, hint]
      exact diffLoop_run_tail o f i hi hrun fuel (i + 1) (by omega) (by omega)
    · have hlt : i < k := by omega
      simp only [diffLoop]
      rw [if_neg (not_not.mpr (heq i hlt))]
      rw [if_neg (by simp)]
      exact ih (i + 1) (by omega) (by omega)

/-- **C3** (amended).  The diff round-trip holds in the cases the positional
algorithm emits a well-formed diff: when the differing line positions form
(at most) one run extending to the end of the inputs.  `k` is the length of
the common prefix; every later position differs.  Then applying the
produced diff to the original reproduces the fixed content, and when the
contents are equal the diff consists of the two file-header lines only (no
hunks). -/
theorem claim_C3_amended (o f : List String) (filename : String) (k : Nat)
    (hkm : k ≤ max o.length f.length)
    (heq : ∀ j, j < k → o.get? j = f.get? j)
    (hrun : ∀ j, k ≤ j → j < max o.length f.length → o.get? j ≠ f.get? j) :
    applyDiff o (genDiffLines o f filename) = some f ∧
    (o = f → genDiffLines o f filename
      = [DiffLine.fileHead ("--- a/" ++ filename), DiffLine.fileHead ("+++ b/" ++ filename)]) := by
  have hko : k ≤ o.length := by
    by_contra hcon
    have h1 : o.length < k := by omega
    have h2 := heq o.length h1
    rw [List.get?_eq_none.mpr (le_refl _)] at h2
    have h3 := List.get?_eq_none.mp h2.symm
    omega
  have hkf : k ≤ f.length := by
    by_contra hcon
    have h1 : f.length < k := by omega
    have h2 := heq f.length h1
    rw [List.get?_eq_none.mpr (le_refl _)] at h2
    have h3 := List.get?_eq_none.mp h2
    omega
  have hloop := diffLoop_pre_tail o f k hkm heq hrun (max o.length f.length) 0 (by omega)
    (by omega)
  constructor
  · unfold genDiffLines
    by_cases hkmax : k = max o.length f.length
    · have hof : o = f := by
        apply List.ext_get?
        intro n
        by_cases hn : n < k
        · exact heq n hn
        · rw [List.get?_eq_none.mpr (by omega), List.get?_eq_none.mpr (by omega)]
      rw [hloop, if_pos hkmax]
      show applyHunksList o 0 [] [] = some f
      unfold applyHunksList
      rw [List.drop_zero, List.nil_append, hof]
    · rw [hloop, if_neg hkmax]
      show (match parseHunks (DiffLine.hunkHead (k + 1) (o.length - k) (k + 1) (f.length - k)
            :: interleaved o f k (max o.length f.length - k)) with
        | some hs => applyHunksList o 0 [] hs
        | none => none) = some f
      rw [parseHunks_single _ _ _ _ _ (bodyLine_interleaved o f k _)]
      show applyHunksList o 0 [] [⟨k + 1, o.length - k, k + 1, f.length - k,
          interleaved o f k (max o.length f.length - k)⟩] = some f
      show (match applyHunk o 0 [] ⟨k + 1, o.length - k, k + 1, f.length - k,
          interleaved o f k (max o.length f.length - k)⟩ with
        | some (p', out') => applyHunksList o p' out' []
        | none => none) = some f
      unfold applyHunk
      have hcond : o.length - k
            = (interleaved o f k (max o.length f.length - k)).countP isCtxLine
              + (interleaved o f k (max o.length f.length - k)).countP isDelLine
          ∧ f.length - k
            = (interleaved o f k (max o.length f.length - k)).countP isCtxLine
              + (interleaved o f k (max o.length f.length - k)).countP isAddLine
          ∧ 1 ≤ k + 1 ∧ 0 ≤ k + 1 - 1 ∧ k + 1 - 1 ≤ o.length := by
        refine ⟨?_, ?_, by omega, by omega, by omega⟩
        · rw [countP_interleaved_ctx, countP_interleaved_del]
          omega
        · rw [countP_interleaved_ctx, countP_interleaved_add]
          omega
      rw [if_pos hcond]
      rw [show k + 1 - 1 = k from by omega, List.drop_zero, List.nil_append]
      have happly := applyBody_interleaved o f (max o.length f.length - k) k (o.take k)
      rw [show min k o.length = k from by omega] at happly
      rw [show (o.take (k - 0)) = o.take k from by rw [Nat.sub_zero]]
      rw [happly]
      show applyHunksList o (min (k + (max o.length f.length - k)) o.length)
          (o.take k ++ (List.range' k (max o.length f.length - k)).filterMap
            (fun t => f.get? t)) [] = some f
      unfold applyHunksList
      rw [show min (k + (max o.length f.length - k)) o.length = o.length from by omega,
        List.drop_eq_nil_of_le (le_refl _), List.append_nil,
        filterMap_get?_range' f (max o.length f.length - k) k (by omega),
        take_eq_of_get?_eq heq, List.take_append_drop]
  · intro hof
    have hkmax : k = max o.length f.length := by
      by_contra hcon
      exact hrun k (le_refl k) (by omega) (by rw [hof])
    unfold genDiffLines
    rw [hloop, if_pos hkmax, List.append_nil]

/-- **C3** (witness).  The amended round-trip theorem applied at a concrete
input whose single changed run reaches the end of the file. -/
theorem claim_C3_witness :
    applyDiff ["a", "b"] (genDiffLines ["a", "b"] ["a", "x", "y"] "f.js") = some ["a", "x", "y"] :=
  (claim_C3_amended ["a", "b"] ["a", "x", "y"] "f.js" 1 (by decide)
    (by decide) (by decide)).1

/-- **C3** (counterexample to the claim as stated).  For the five-line pair
below the differing positions form two runs separated by a single equal
line.  The emitted diff is malformed: the first hunk's trailing context
repeats lines that the second hunk then claims as its leading context with
the *original* (not fixed) text, and both hunk headers count only the
leading context and changed lines.  Standard unified-diff application
therefore fails — it does not reproduce the fixed content. -/
theorem claim_C3_counterexample :
    genDiffLines ["A", "e", "B", "f", "g"] ["a", "e", "b", "f", "g"] "f.js" =
      [DiffLine.fileHead "--- a/f.js", DiffLine.fileHead "+++ b/f.js",
        DiffLine.hunkHead 1 1 1 1, DiffLine.del "A", DiffLine.add "a",
        DiffLine.ctx "e", DiffLine.ctx "B", DiffLine.ctx "f",
        DiffLine.hunkHead 1 3 1 3, DiffLine.ctx "A", DiffLine.ctx "e",
        DiffLine.del "B", DiffLine.add "b", DiffLine.ctx "f", DiffLine.ctx "g"] ∧
    applyDiff ["A", "e", "B", "f", "g"]
      (genDiffLines ["A", "e", "B", "f", "g"] ["a", "e", "b", "f", "g"] "f.js") = none := by
  constructor
  · decide
  · rfl

lemma diffLoop_all_equal (o f : List String) :
    ∀ (fuel i : Nat), i + fuel = max o.length f.length →
      (∀ j, i ≤ j → j < max o.length f.length → o.get? j = f.get? j) →
      diffLoop o f i fuel none [] = [] := by
  intro fuel
  induction fuel with
  | zero => intro i _ _; rfl
  | succ fuel ih =>
    intro i hif hall
    have hi : i < max o.length f.length := by omega
    simp only [diffLoop]
    rw [if_neg (not_not.mpr (hall i (le_refl i) hi))]
    rw [if_neg (by simp)]
    exact ih (i + 1) (by omega) (fun j hj hjm => hall j (by omega) hjm)

lemma diffLoop_run_mid (o f : List String) (s e : Nat)
    (hse : s < e) (heL : e < o.length) (hmax : max o.length f.length = o.length)
    (hrun : ∀ j, s ≤ j → j < e → o.get? j ≠ f.get? j)
    (hpost : ∀ j, e ≤ j → j < o.length → o.get? j = f.get? j) :
    ∀ (fuel i : Nat), i + fuel = o.length → s ≤ i → i ≤ e →
      diffLoop o f i fuel (some s) (interleaved o f s (i - s)) =
        closeHunk o s e (interleaved o f s (e - s)) := by
  intro fuel
  induction fuel with
  | zero => intro i hif his hie; omega
  | succ fuel ih =>
    intro i hif his hie
    by_cases hieq : i = e
    · subst hieq
      simp only [diffLoop]
      rw [if_neg (not_not.mpr (hpost i (le_refl i) heL))]
      rw [if_pos ⟨by simp, interleaved_ne_nil (Or.inl (by omega)) (by omega)⟩]
      show closeHunk o s i (interleaved o f s (i - s)) ++ diffLoop o f (i + 1) fuel none [] = _
      rw [diffLoop_all_equal o f fuel (i + 1) (by omega)
        (fun j hj hjm => hpost j (by omega) (by omega)), List.append_nil]
    · have hlt : i < e := by omega
      simp only [diffLoop]
      rw [if_pos (hrun i his hlt)]
      have hstep : interleaved o f s (i - s) ++ delAddBlock o f i
          = interleaved o f s (i + 1 - s) := by
        have h1 : i + 1 - s = (i - s) + 1 := by omega
        rw [h1, interleaved_succ_right]
        have h2 : s + (i - s) = i := by omega
        rw [h2]
      show diffLoop o f (i + 1) fuel (some s)
          (interleaved o f s (i - s) ++ delAddBlock o f i) = _
      rw [hstep]
      exact ih (i + 1) (by omega) (by omega) (by omega)

lemma diffLoop_pre_mid (o f : List String) (s e : Nat)
    (hse : s < e) (heL : e < o.length) (hmax : max o.length f.length = o.length)
    (hpre : ∀ j, j < s → o.get? j = f.get? j)
    (hrun : ∀ j, s ≤ j → j < e → o.get? j ≠ f.get? j)
    (hpost : ∀ j, e ≤ j → j < o.length → o.get? j = f.get? j) :
    ∀ (fuel i : Nat), i + fuel = o.length → i ≤ s →
      diffLoop o f i fuel none [] = closeHunk o s e (interleaved o f s (e - s)) := by
  intro fuel
  induction fuel with
  | zero => intro i hif his; omega
  | succ fuel ih =>
    intro i hif his
    by_cases hieq : i = s
    · subst hieq
      simp only [diffLoop]
      rw [if_pos (hrun i (le_refl i) hse)]
      show diffLoop o f (i + 1) fuel (some i) ([] ++ delAddBlock o f i) = _
      have hint : delAddBlock o f i = interleaved o f i (i + 1 - i) := by
        rw [show i + 1 - i = 1 from by omega, interleaved_one]
      rw [List.nil_append, hint]
      exact diffLoop_run_mid o f i e hse heL hmax hrun hpost fuel (i + 1) (by omega)
        (by omega) (by omega)
    · have hlt : i < s := by omega
      simp only [diffLoop]
      rw [if_neg (not_not.mpr (hpre i hlt))]
      rw [if_neg (by simp)]
      exact ih (i + 1) (by omega) (by omega)

/-- **C4** (amended).  For a single mid-file changed run `[s, e)` (equal
lines before, after, and equal lengths), the emitted hunk consists of: a
header `@@ -(cb+1),(e-cb) +(cb+1),(e-cb) @@` where `cb = max 0 (s-3)` —
both lengths equal, counting the leading context and changed positions but
*excluding* the trailing context; then up to three leading context lines;
then, for each differing position in order, the removed line immediately
followed by the corresponding added line (interleaved per position, not
grouped); then up to three trailing context lines. -/
theorem claim_C4_amended (o f : List String) (filename : String) (s e : Nat)
    (hlen : o.length = f.length) (hse : s < e) (heL : e < o.length)
    (hpre : ∀ j, j < s → o.get? j = f.get? j)
    (hrun : ∀ j, s ≤ j → j < e → o.get? j ≠ f.get? j)
    (hpost : ∀ j, e ≤ j → j < o.length → o.get? j = f.get? j) :
    genDiffLines o f filename
      = [DiffLine.fileHead ("--- a/" ++ filename), DiffLine.fileHead ("+++ b/" ++ filename)]
        ++ closeHunk o s e (interleaved o f s (e - s)) ∧
    closeHunk o s e (interleaved o f s (e - s))
      = [DiffLine.hunkHead (s - 3 + 1) (e - (s - 3)) (s - 3 + 1) (e - (s - 3))]
        ++ (List.range' (s - 3) (s - (s - 3))).map
          (fun j => DiffLine.ctx ((o.get? j).getD "undefined"))
        ++ interleaved o f s (e - s)
        ++ (List.range' e (min (o.length - 1) (e + 2) + 1 - e)).map
          (fun j => DiffLine.ctx ((o.get? j).getD "undefined")) ∧
    s - (s - 3) ≤ 3 ∧ min (o.length - 1) (e + 2) + 1 - e ≤ 3 := by
  have hmax : max o.length f.length = o.length := by omega
  refine ⟨?_, ?_, by omega, by omega⟩
  · unfold genDiffLines
    rw [hmax, diffLoop_pre_mid o f s e hse heL hmax hpre hrun hpost o.length 0 (by omega)
      (by omega)]
  · unfold closeHunk
    have hfilter : (List.range' e (min (o.length - 1) (e + 2) + 1 - e)).filter
        (fun j => decide (j < o.length))
        = List.range' e (min (o.length - 1) (e + 2) + 1 - e) := by
      apply List.filter_eq_self.mpr
      intro j hj
      have := List.mem_range'_1.mp hj
      simp only [decide_eq_true_eq]
      omega
    rw [hfilter]

/-- **C4** (witness).  The amended hunk-shape theorem applied at a concrete
single-run input. -/
theorem claim_C4_witness :
    genDiffLines ["a", "B", "c", "d"] ["a", "x", "c", "d"] "f.js"
      = [DiffLine.fileHead "--- a/f.js", DiffLine.fileHead "+++ b/f.js"]
        ++ closeHunk ["a", "B", "c", "d"] 1 2
          (interleaved ["a", "B", "c", "d"] ["a", "x", "c", "d"] 1 1) :=
  (claim_C4_amended ["a", "B", "c", "d"] ["a", "x", "c", "d"] "f.js" 1 2 (by decide)
    (by decide) (by decide) (by decide) (by decide) (by decide)).1

/-- **C4** (counterexample to the claim as stated).  For a two-line changed
run the emitted hunk interleaves `-`/`+` lines per position instead of
listing all removed lines before all added lines (an added line is followed
by a removed line), and the header lengths `2,2` do not describe the lines
that follow: the hunk body contains three original-side lines (one context
and two removed). -/
theorem claim_C4_counterexample :
    genDiffLines ["A", "B", "c"] ["x", "y", "c"] "f.js" =
      [DiffLine.fileHead "--- a/f.js", DiffLine.fileHead "+++ b/f.js",
        DiffLine.hunkHead 1 2 1 2, DiffLine.del "A", DiffLine.add "x",
        DiffLine.del "B", DiffLine.add "y", DiffLine.ctx "c"] ∧
    hasDelAfterAdd (genDiffLines ["A", "B", "c"] ["x", "y", "c"] "f.js") false = true ∧
    ([DiffLine.del "A", DiffLine.add "x", DiffLine.del "B", DiffLine.add "y",
        DiffLine.ctx "c"].countP isCtxLine
      + [DiffLine.del "A", DiffLine.add "x", DiffLine.del "B", DiffLine.add "y",
        DiffLine.ctx "c"].countP isDelLine) ≠ 2 := by
  refine ⟨by decide, by decide, by decide⟩

/-! ## Severity normalization (`ScannerService.map*Severity`,
src/server/services/scanner.ts lines 492-562, and the inline ESLint mapping
at line 115) -/

/-- `String.prototype.toLowerCase` (character-wise, sufficient for the ASCII
vocabulary compared against). -/
def jsToLower (s : String) : String := String.mk (s.data.map Char.toLower)

/-- `String.prototype.toUpperCase` (character-wise). -/
def jsToUpper (s : String) : String := String.mk (s.data.map Char.toUpper)

/-- `mapNpmSeverity`: `critical|high → high`, `moderate|medium → medium`,
`low|info` and the `default` case → `low`. -/
def mapNpmSeverity (npmSeverity : String) : String :=
  if jsToLower npmSeverity = "critical" ∨ jsToLower npmSeverity = "high" then "high"
  else if jsToLower npmSeverity = "moderate" ∨ jsToLower npmSeverity = "medium" then "medium"
  else "low"

/-- `mapSemgrepSeverity`: `ERROR|HIGH → high`, `WARNING|MEDIUM → medium`,
`INFO|LOW` and the `default` case → `low`. -/
def mapSemgrepSeverity (semgrepSeverity : String) : String :=
  if jsToUpper semgrepSeverity = "ERROR" ∨ jsToUpper semgrepSeverity = "HIGH" then "high"
  else if jsToUpper semgrepSeverity = "WARNING" ∨ jsToUpper semgrepSeverity = "MEDIUM" then
    "medium"
  else "low"

/-- `mapTrivySeverity`: `CRITICAL|HIGH → high`, `MEDIUM → medium`,
`LOW|UNKNOWN|NEGLIGIBLE` and the `default` case → `low`. -/
def mapTrivySeverity (trivySeverity : String) : String :=
  if jsToUpper trivySeverity = "CRITICAL" ∨ jsToUpper trivySeverity = "HIGH" then "high"
  else if jsToUpper trivySeverity = "MEDIUM" then "medium"
  else "low"

/-- `mapBanditSeverity`: `HIGH → high`, `MEDIUM → medium`, `LOW` and the
`default` case → `low`. -/
def mapBanditSeverity (banditSeverity : String) : String :=
  if jsToUpper banditSeverity = "HIGH" then "high"
  else if jsToUpper banditSeverity = "MEDIUM" then "medium"
  else "low"

/-- `mapSafetySeverity`: `CRITICAL|HIGH → high`, `MEDIUM|MODERATE → medium`,
`LOW|UNKNOWN` and the `default` case → `low`. -/
def mapSafetySeverity (safetySeverity : String) : String :=
  if jsToUpper safetySeverity = "CRITICAL" ∨ jsToUpper safetySeverity = "HIGH" then "high"
  else if jsToUpper safetySeverity = "MEDIUM" ∨ jsToUpper safetySeverity = "MODERATE" then
    "medium"
  else "low"

/-- The inline ESLint severity mapping
(`message.severity === 2 ? 'high' : message.severity === 1 ? 'medium' : 'low'`). -/
def eslintSeverity (n : Int) : String :=
  if n = 2 then "high" else if n = 1 then "medium" else "low"

/-- **C7** (confirmed).  Every severity-normalization function is total into
`{high, medium, low}`, and every unrecognized value maps to `low`. -/
theorem claim_C7_severity_total :
    (∀ s, mapNpmSeverity s = "high" ∨ mapNpmSeverity s = "medium" ∨ mapNpmSeverity s = "low") ∧
    (∀ s, jsToLower s ∉ ["critical", "high", "moderate", "medium"] →
      mapNpmSeverity s = "low") ∧
    (∀ s, mapSemgrepSeverity s = "high" ∨ mapSemgrepSeverity s = "medium"
      ∨ mapSemgrepSeverity s = "low") ∧
    (∀ s, jsToUpper s ∉ ["ERROR", "HIGH", "WARNING", "MEDIUM"] →
      mapSemgrepSeverity s = "low") ∧
    (∀ s, mapTrivySeverity s = "high" ∨ mapTrivySeverity s = "medium"
      ∨ mapTrivySeverity s = "low") ∧
    (∀ s, jsToUpper s ∉ ["CRITICAL", "HIGH", "MEDIUM"] → mapTrivySeverity s = "low") ∧
    (∀ s, mapBanditSeverity s = "high" ∨ mapBanditSeverity s = "medium"
      ∨ mapBanditSeverity s = "low") ∧
    (∀ s, jsToUpper s ∉ ["HIGH", "MEDIUM"] → mapBanditSeverity s = "low") ∧
    (∀ s, mapSafetySeverity s = "high" ∨ mapSafetySeverity s = "medium"
      ∨ mapSafetySeverity s = "low") ∧
    (∀ s, jsToUpper s ∉ ["CRITICAL", "HIGH", "MEDIUM", "MODERATE"] →
      mapSafetySeverity s = "low") ∧
    (∀ n : Int, eslintSeverity n = "high" ∨ eslintSeverity n = "medium"
      ∨ eslintSeverity n = "low") ∧
    (∀ n : Int, n ≠ 2 → n ≠ 1 → eslintSeverity n = "low") := by
  refine ⟨?_, ?_, ?_, ?_, ?_, ?_, ?_, ?_, ?_, ?_, ?_, ?_⟩ <;> intro s
  · unfold mapNpmSeverity; split <;> try split
    all_goals simp
  · intro h
    unfold mapNpmSeverity
    simp only [List.mem_cons, List.mem_singleton] at h
    rw [if_neg (by tauto), if_neg (by tauto)]
  · unfold mapSemgrepSeverity; split <;> try split
    all_goals simp
  · intro h
    unfold mapSemgrepSeverity
    simp only [List.mem_cons, List.mem_singleton] at h
    rw [if_neg (by tauto), if_neg (by tauto)]
  · unfold mapTrivySeverity; split <;> try split
    all_goals simp
  · intro h
    unfold mapTrivySeverity
    simp only [List.mem_cons, List.mem_singleton] at h
    rw [if_neg (by tauto), if_neg (by tauto)]
  · unfold mapBanditSeverity; split <;> try split
    all_goals simp
  · intro h
    unfold mapBanditSeverity
    simp only [List.mem_cons, List.mem_singleton] at h
    rw [if_neg (by tauto), if_neg (by tauto)]
  · unfold mapSafetySeverity; split <;> try split
    all_goals simp
  · intro h
    unfold mapSafetySeverity
    simp only [List.mem_cons, List.mem_singleton] at h
    rw [if_neg (by tauto), if_neg (by tauto)]
  · unfold eslintSeverity; split <;> try split
    all_goals simp
  · intro h1 h2
    unfold eslintSeverity
    rw [if_neg h1, if_neg h2]

/-- **C7** (witness).  The totality theorem applied at unrecognized inputs. -/
theorem claim_C7_witness :
    mapNpmSeverity "banana" = "low" ∧ mapSemgrepSeverity "wat" = "low" ∧
    mapTrivySeverity "negligible" = "low" ∧ mapBanditSeverity "undefined" = "low" ∧
    mapSafetySeverity "unknown" = "low" ∧ eslintSeverity 7 = "low" :=
  ⟨claim_C7_severity_total.2.1 "banana" (by decide),
    claim_C7_severity_total.2.2.2.1 "wat" (by decide),
    claim_C7_severity_total.2.2.2.2.2.1 "negligible" (by decide),
    claim_C7_severity_total.2.2.2.2.2.2.2.1 "undefined" (by decide),
    claim_C7_severity_total.2.2.2.2.2.2.2.2.2.1 "unknown" (by decide),
    claim_C7_severity_total.2.2.2.2.2.2.2.2.2.2.2 7 (by decide) (by decide)⟩

/-! ## The in-memory store (`MemStorage`, src/server/storage.ts)

JavaScript `Map`s preserve insertion order, and `Map.set` on an existing
key keeps the entry's position; the stores are therefore modelled as lists
in insertion order, with replacement-in-place for updates. -/

/-- A stored `Issue` row (`issues` table plus remediation lifecycle
fields, as materialized by `MemStorage.createIssue`). -/
structure Issue where
  id : String
  scanId : String
  severity : String
  title : String
  description : String
  file : Option String
  line : Option Int
  column : Option Int
  rule : Option String
  source : String
  remediation : Option String
  cve : Option String
  remediationStatus : Option String
  remediatedCode : Option String
  prUrl : Option String
  prNumber : Option Int
  remediatedAt : Option Nat
deriving DecidableEq, Repr

/-- A stored `ModelSettings` row. -/
structure ModelSettings where
  id : String
  name : String
  provider : String
  modelName : String
  endpoint : Option String
  apiKey : Option String
  isDefault : String
  createdAt : Nat
  updatedAt : Nat
deriving DecidableEq, Repr

/-- The insert shape accepted by `createModelSettings`. -/
structure InsertModelSettings where
  name : String
  provider : String
  modelName : String
  endpoint : Option String
  apiKey : Option String
  isDefault : String
deriving DecidableEq, Repr

/-- A `Partial<ModelSettings>` update (data fields; `id`/`createdAt` are
never overwritten by the call sites). -/
structure ModelSettingsUpdate where
  name : Option String
  provider : Option String
  modelName : Option String
  endpoint : Option (Option String)
  apiKey : Option (Option String)
  isDefault : Option String
deriving DecidableEq, Repr

/-- `MemStorage.createModelSettings`: materialize the row and append it
(`Map.set` with a fresh id). -/
def createModelSettings (store : List ModelSettings) (newId : String) (now : Nat)
    (ins : InsertModelSettings) : List ModelSettings × ModelSettings :=
  let s : ModelSettings :=
    ⟨newId, ins.name, ins.provider, ins.modelName, ins.endpoint, ins.apiKey, ins.isDefault,
      now, now⟩
  (store ++ [s], s)

/-- The `{ ...settings, ...updates, updatedAt: new Date() }` merge. -/
def applyUpdate (s : ModelSettings) (u : ModelSettingsUpdate) (now : Nat) : ModelSettings :=
  { id := s.id, name := u.name.getD s.name, provider := u.provider.getD s.provider,
    modelName := u.modelName.getD s.modelName, endpoint := u.endpoint.getD s.endpoint,
    apiKey := u.apiKey.getD s.apiKey, isDefault := u.isDefault.getD s.isDefault,
    createdAt := s.createdAt, updatedAt := now }

/-- `MemStorage.updateModelSettings`: no-op returning `undefined` for a
missing id, otherwise replace the entry in place. -/
def updateModelSettings (store : List ModelSettings) (id : String) (now : Nat)
    (u : ModelSettingsUpdate) : List ModelSettings × Option ModelSettings :=
  match store.find? (fun s => s.id == id) with
  | none => (store, none)
  | some s =>
    (store.map (fun t => if t.id = id then applyUpdate t u now else t),
      some (applyUpdate s u now))

/-- `MemStorage.getDefaultModelSettings`:
`Array.from(values()).find(s => s.isDefault === "true")`. -/
def getDefaultModelSettings (store : List ModelSettings) : Option ModelSettings :=
  store.find? (fun s => s.isDefault == "true")

/-- `MemStorage.deleteModelSettings`. -/
def deleteModelSettings (store : List ModelSettings) (id : String) : List ModelSettings :=
  store.filter (fun s => ¬ s.id = id)

/-- The model-settings stores reachable from the empty store through the
`MemStorage` operations (creation ids are fresh, as `randomUUID` ensures). -/
inductive ReachableStore : List ModelSettings → Prop where
  | empty : ReachableStore []
  | create (st : List ModelSettings) (newId : String) (now : Nat) (ins : InsertModelSettings) :
      ReachableStore st → (∀ s ∈ st, s.id ≠ newId) →
      ReachableStore (createModelSettings st newId now ins).1
  | update (st : List ModelSettings) (id : String) (now : Nat) (u : ModelSettingsUpdate) :
      ReachableStore st → ReachableStore (updateModelSettings st id now u).1
  | del (st : List ModelSettings) (id : String) :
      ReachableStore st → ReachableStore (deleteModelSettings st id)

lemma find?_of_filter_singleton {α : Type} (p : α → Bool) :
    ∀ (l : List α) (a : α), l.filter p = [a] → l.find? p = some a := by
  intro l
  induction l with
  | nil => intro a h; simp at h
  | cons x xs ih =>
    intro a h
    by_cases hx : p x = true
    · rw [List.filter_cons_of_pos hx] at h
      rw [List.find?_cons_of_pos _ hx]
      injection h with h1 _
      rw [h1]
    · rw [List.filter_cons_of_neg hx] at h
      rw [List.find?_cons_of_neg _ hx]
      exact ih a h

/-- **C9** (counterexample to the claim as stated).  A store with *two*
entries marked default is reachable through `createModelSettings` alone
(nothing ever unsets the other entries' flags), so "at most one
configuration is marked default in every reachable state" is false. -/
theorem claim_C9_counterexample :
    ReachableStore
      [⟨"id-a", "cfg-a", "ollama", "llama3", none, none, "true", 0, 0⟩,
        ⟨"id-b", "cfg-b", "openai", "gpt-4o", none, none, "true", 1, 1⟩] ∧
    (([⟨"id-a", "cfg-a", "ollama", "llama3", none, none, "true", 0, 0⟩,
        ⟨"id-b", "cfg-b", "openai", "gpt-4o", none, none, "true", 1, 1⟩]
      : List ModelSettings).filter (fun s => s.isDefault == "true")).length = 2 := by
  constructor
  · have h1 := ReachableStore.create [] "id-a" 0 ⟨"cfg-a", "ollama", "llama3", none, none, "true"⟩
      ReachableStore.empty (by simp)
    have h2 := ReachableStore.create _ "id-b" 1 ⟨"cfg-b", "openai", "gpt-4o", none, none, "true"⟩
      h1 (by decide)
    exact h2
  · decide

/-- **C9** (amended).  The store does not enforce at-most-one-default:
`createModelSettings` appends without touching existing entries and
`updateModelSettings` leaves every other entry unchanged (so marking a new
default does not unset previous ones, and two defaults are reachable — see
the counterexample); `getDefaultModelSettings` returns the first entry in
insertion order whose flag is `"true"`, hence the unique default whenever
exactly one entry is marked default. -/
theorem claim_C9_amended :
    (∀ (st : List ModelSettings) (newId : String) (now : Nat) (ins : InsertModelSettings),
      (createModelSettings st newId now ins).1
        = st ++ [⟨newId, ins.name, ins.provider, ins.modelName, ins.endpoint, ins.apiKey,
            ins.isDefault, now, now⟩]) ∧
    (∀ (st : List ModelSettings) (id : String) (now : Nat) (u : ModelSettingsUpdate)
        (s : ModelSettings), s ∈ st → s.id ≠ id → s ∈ (updateModelSettings st id now u).1) ∧
    (∀ (st : List ModelSettings) (s : ModelSettings),
      st.filter (fun t => t.isDefault == "true") = [s] →
      getDefaultModelSettings st = some s) := by
  refine ⟨fun _ _ _ _ => rfl, ?_, ?_⟩
  · intro st id now u s hmem hne
    unfold updateModelSettings
    rcases hfind : st.find? (fun s => s.id == id) with _ | t <;> rw [hfind]
    · exact hmem
    · show s ∈ st.map (fun t => if t.id = id then applyUpdate t u now else t)
      have hfix : (fun t => if t.id = id then applyUpdate t u now else t) s = s := by
        simp only []
        rw [if_neg hne]
      exact hfix ▸ List.mem_map_of_mem _ hmem
  · intro st s h
    exact find?_of_filter_singleton _ st s h

/-- **C9** (witness).  `getDefaultModelSettings` applied through the
amended theorem at a concrete two-entry store with a unique default. -/
theorem claim_C9_witness :
    getDefaultModelSettings
      [⟨"id-a", "cfg-a", "ollama", "llama3", none, none, "false", 0, 0⟩,
        ⟨"id-b", "cfg-b", "openai", "gpt-4o", none, none, "true", 1, 1⟩]
      = some ⟨"id-b", "cfg-b", "openai", "gpt-4o", none, none, "true", 1, 1⟩ :=
  claim_C9_amended.2.2 _ _ (by decide)

/-- `severityOrder[severity] || 0` in `getIssuesByScan`. -/
def severityRank (severity : String) : Nat :=
  if severity = "high" then 3 else if severity = "medium" then 2
  else if severity = "low" then 1 else 0

/-- `MemStorage.getIssuesByScan` (src/server/storage.ts lines 106-114):
filter by scan id, then sort by descending severity rank (a stable sort
with comparator `severityOrder[b] - severityOrder[a]`). -/
def getIssuesByScan (issues : List Issue) (scanId : String) : List Issue :=
  (issues.filter (fun i => i.scanId == scanId)).mergeSort
    (fun a b => severityRank b.severity ≤ severityRank a.severity)

/-- **C10** (confirmed).  `getIssuesByScan` returns exactly the scan's
issues (a permutation of the filtered store), pairwise sorted by
non-increasing severity rank: every `high` before every `medium` before
every `low`, unrecognized severities (rank 0) last. -/
theorem claim_C10_sorted_severity (issues : List Issue) (scanId : String) :
    (getIssuesByScan issues scanId).Pairwise
      (fun a b => severityRank b.severity ≤ severityRank a.severity) ∧
    (getIssuesByScan issues scanId).Perm
      (issues.filter (fun i => i.scanId == scanId)) ∧
    (∀ i ∈ getIssuesByScan issues scanId, i.scanId = scanId) := by
  refine ⟨?_, List.mergeSort_perm _ _, ?_⟩
  · have h := @List.sorted_mergeSort Issue
      (fun a b => decide (severityRank b.severity ≤ severityRank a.severity))
      (fun a b c hab hbc => by
        simp only [decide_eq_true_eq] at hab hbc ⊢
        omega)
      (fun a b => by
        simp only [Bool.or_eq_true, decide_eq_true_eq]
        omega)
      (issues.filter (fun i => i.scanId == scanId))
    exact h.imp (fun hab => by simpa using hab)
  · intro i hi
    have hmem := (List.mergeSort_perm (issues.filter (fun i => i.scanId == scanId))
      (fun a b => severityRank b.severity ≤ severityRank a.severity)).mem_iff.mp hi
    have := (List.mem_filter.mp hmem).2
    simpa using this

/-! ## The remediation engine (`RemediationService`,
src/server/services/remediation.ts)

Filesystem reads/writes and the LLM transport are the effectful boundary;
they are supplied as an environment of fallible functions, and each
embedded method additionally returns the ordered trace of boundary calls
it performs, so that "never read"/"never invoked" claims are statements
about the trace. -/

structure LLMMessage where
  role : String
  content : String
deriving DecidableEq, Repr

structure RemediationResult where
  success : Bool
  originalCode : Option String
  fixedCode : Option String
  diff : Option String
  explanation : Option String
  error : Option String
deriving DecidableEq, Repr

/-- One boundary call made by the remediation engine. -/
inductive RemEvent where
  | readFile (path : String)
  | chatCall (messages : List LLMMessage)
  | writeFile (path : String)
deriving DecidableEq, Repr

/-- The effectful boundary: `fs.readFile`, `LLMService.chat`,
`fs.writeFile`. -/
structure RemEnv where
  readFile : String → Except String String
  chat : List LLMMessage → ModelSettings → Except String String
  writeFile : String → String → Except String Unit

/-- JavaScript string truthiness for `string | null` values
(`null`/`undefined` and `""` are falsy). -/
def optStrTruthy : Option String → Bool
  | none => false
  | some s => s ≠ ""

/-- `a || b` on `string | null` values. -/
def jsStrOr (o : Option String) (d : String) : String :=
  match o with
  | some s => if s = "" then d else s
  | none => d

/-- `x || null` on optional strings (`""` collapses to `null`). -/
def jsStrOrNull (o : Option String) : Option String :=
  match o with
  | some s => if s = "" then none else some s
  | none => none

/-- `x || null` on optional numbers (`0` collapses to `null`). -/
def jsIntOrNull (o : Option Int) : Option Int :=
  match o with
  | some n => if n = 0 then none else some n
  | none => none

/-- JS whitespace for `trim` (the characters relevant here). -/
def isJsWs (c : Char) : Bool := c == ' ' || c == '\t' || c == '\n' || c == '\r'

/-- `String.prototype.trim`. -/
def jsTrim (s : String) : String :=
  String.mk (((s.data.dropWhile isJsWs).reverse.dropWhile isJsWs).reverse)

/-- `[\w]` — ASCII word characters. -/
def isWordChar (c : Char) : Bool :=
  ('a' ≤ c && c ≤ 'z') || ('A' ≤ c && c ≤ 'Z') || ('0' ≤ c && c ≤ '9') || c == '_'

/-- Match the trimmed response against `/^```[\w]*\n([\s\S]*?)\n```$/`:
an opening fence with an optional language word, a newline, the captured
middle, and the string must end with a newline and a closing fence. -/
def matchFence (l : List Char) : Option (List Char) :=
  match l with
  | '`' :: '`' :: '`' :: rest =>
    match rest.dropWhile isWordChar with
    | '\n' :: mid =>
      if 4 ≤ mid.length ∧ mid.drop (mid.length - 4) = ['\n', '`', '`', '`'] then
        some (mid.take (mid.length - 4))
      else none
    | _ => none
  | _ => none

/-- `.replace(/^`+|`+$/g, '')`: strip runs of backticks at both ends. -/
def stripTicks (l : List Char) : List Char :=
  ((l.dropWhile (· == '`')).reverse.dropWhile (· == '`')).reverse

/-- `RemediationService.cleanLLMResponse` (lines 122-136): trim, strip one
enclosing fenced code block, strip stray backticks, trim again. -/
def cleanLLMResponse (response : String) : String :=
  let cleaned := jsTrim response
  let cleaned2 :=
    match matchFence cleaned.data with
    | some mid => String.mk mid
    | none => cleaned
  jsTrim (String.mk (stripTicks cleaned2.data))

/-- `RemediationService.buildRemediationPrompt` (lines 89-120). -/
def buildRemediationPrompt (issue : Issue) (code : String) : String :=
  "Fix the following security/quality issue in this code:\n\n"
    ++ "Issue: " ++ issue.title ++ "\n"
    ++ "Severity: " ++ issue.severity ++ "\n"
    ++ "Description: " ++ issue.description ++ "\n"
    ++ (if optStrTruthy issue.remediation then
        "Suggested Remediation: " ++ issue.remediation.getD "" ++ "\n" else "")
    ++ (if optStrTruthy issue.rule then "Rule: " ++ issue.rule.getD "" ++ "\n" else "")
    ++ (match issue.line with
      | some ln =>
        if ln = 0 then ""
        else "Location: Line " ++ toString ln
          ++ (match issue.column with
            | some c => if c = 0 then "" else ", Column " ++ toString c
            | none => "")
          ++ "\n"
      | none => "")
    ++ (if optStrTruthy issue.cve then "CVE: " ++ issue.cve.getD "" ++ "\n" else "")
    ++ "\nFile: " ++ issue.file.getD "null" ++ "\n"
    ++ "\nOriginal Code:\n```\n" ++ code ++ "\n```\n\n"
    ++ "Provide the complete fixed version of this file. Return ONLY the code, no explanations."

/-- The system prompt of `remediateIssue`. -/
def remediationSystemPrompt : String :=
  "You are a senior software engineer specialized in code security and quality. "
    ++ "Your task is to fix security vulnerabilities and code quality issues while ensuring "
    ++ "the fix does not break existing functionality, the code remains readable, imports are "
    ++ "preserved, the root cause is addressed, and ONLY the complete fixed file content is "
    ++ "returned."

/-- `RemediationService.remediateIssue` (lines 23-87): refuse an issue with
no (truthy) file; read `path.join(repoPath, issue.file)` — note: *without*
any `validatePath` call; ask the transport for a fix; clean it; reject an
empty response; otherwise compute the diff and succeed.  The second
component is the trace of boundary calls. -/
def remediateIssue (env : RemEnv) (issue : Issue) (repoPath : String)
    (modelSettings : ModelSettings) : RemediationResult × List RemEvent :=
  if ¬ optStrTruthy issue.file then
    ({ success := false, originalCode := none, fixedCode := none, diff := none,
        explanation := none, error := some "Issue does not have an associated file" }, [])
  else
    let filePath := pathJoin repoPath (issue.file.getD "")
    match env.readFile filePath with
    | .error e =>
      ({ success := false, originalCode := none, fixedCode := none, diff := none,
          explanation := none, error := some ("Failed to read file: " ++ e) },
        [.readFile filePath])
    | .ok originalCode =>
      let messages : List LLMMessage :=
        [⟨"system", remediationSystemPrompt⟩,
          ⟨"user", buildRemediationPrompt issue originalCode⟩]
      match env.chat messages modelSettings with
      | .error e =>
        ({ success := false, originalCode := none, fixedCode := none, diff := none,
            explanation := none, error := some ("Remediation failed: " ++ e) },
          [.readFile filePath, .chatCall messages])
      | .ok content =>
        let fixedCode := cleanLLMResponse content
        if fixedCode = "" ∨ jsTrim fixedCode = "" then
          ({ success := false, originalCode := none, fixedCode := none, diff := none,
              explanation := none, error := some "LLM returned empty response" },
            [.readFile filePath, .chatCall messages])
        else
          ({ success := true, originalCode := some originalCode,
              fixedCode := some fixedCode,
              diff := some (generateDiff originalCode fixedCode (issue.file.getD "")),
              explanation := some ("Fixed " ++ issue.severity ++ " severity issue: "
                ++ issue.title),
              error := none },
            [.readFile filePath, .chatCall messages])

/-- `RemediationService.applyFix` (lines 194-197): write the fixed content
to `path.join(repoPath, filePath)` — again without any `validatePath`
call. -/
def applyFix (env : RemEnv) (repoPath filePath fixedCode : String) :
    Except String Unit × List RemEvent :=
  (env.writeFile (pathJoin repoPath filePath) fixedCode,
    [.writeFile (pathJoin repoPath filePath)])

/-- **C6** (confirmed).  For an issue whose `file` is `null`,
`remediateIssue` returns the structured "no associated file" failure and
performs no boundary call at all: no transport (`chat`) call and no file
read (the trace is empty). -/
theorem claim_C6_no_file (env : RemEnv) (issue : Issue) (repoPath : String)
    (ms : ModelSettings) (h : issue.file = none) :
    remediateIssue env issue repoPath ms =
      ({ success := false, originalCode := none, fixedCode := none, diff := none,
          explanation := none, error := some "Issue does not have an associated file" },
        ([] : List RemEvent)) := by
  unfold remediateIssue
  rw [if_pos]
  rw [h]
  simp [optStrTruthy]

/-- **C6** (witness).  The theorem applied at a concrete file-less issue. -/
theorem claim_C6_witness :
    remediateIssue
      ⟨fun _ => .ok "code", fun _ _ => .ok "fixed", fun _ _ => .ok ()⟩
      ⟨"i1", "s1", "high", "hardcoded creds", "desc", none, none, none, none, "npm-audit",
        none, none, none, none, none, none, none⟩
      "/tmp/work"
      ⟨"m1", "cfg", "ollama", "llama3", none, none, "true", 0, 0⟩
      = ({ success := false, originalCode := none, fixedCode := none, diff := none,
            explanation := none, error := some "Issue does not have an associated file" },
        ([] : List RemEvent)) :=
  claim_C6_no_file _ _ _ _ rfl

/-- **C2** (counterexample to the claim as stated).  An issue whose `file`
is `"../../etc/passwd"` with working copy `"/tmp/work"`: the joined path
resolves to `/etc/passwd`, *outside* the working copy — `validatePath`
rejects it — yet `remediateIssue` performs the read at that very path (no
validation failure occurs) and succeeds. -/
theorem claim_C2_counterexample :
    (remediateIssue
      ⟨fun _ => .ok "root:x:0:0", fun _ _ => .ok "fixed content", fun _ _ => .ok ()⟩
      ⟨"i1", "s1", "high", "t", "d", some "../../etc/passwd", none, none, none, "semgrep",
        none, none, none, none, none, none, none⟩
      "/tmp/work"
      ⟨"m1", "cfg", "ollama", "llama3", none, none, "true", 0, 0⟩).2.head?
      = some (RemEvent.readFile "/etc/passwd") ∧
    validatePathJs "/cwd" "/tmp/work" "/etc/passwd"
      = .error "Path traversal attempt detected" ∧
    (remediateIssue
      ⟨fun _ => .ok "root:x:0:0", fun _ _ => .ok "fixed content", fun _ _ => .ok ()⟩
      ⟨"i1", "s1", "high", "t", "d", some "../../etc/passwd", none, none, none, "semgrep",
        none, none, none, none, none, none, none⟩
      "/tmp/work"
      ⟨"m1", "cfg", "ollama", "llama3", none, none, "true", 0, 0⟩).1.success = true := by
  refine ⟨rfl, rfl, rfl⟩

/-- **C2** (amended).  `remediateIssue` never re-validates the tool-supplied
path: for *every* issue with a (truthy) `file` value — including values
resolving outside the working copy — its first boundary call is a read of
the raw `path.join(working copy, issue.file)`, and `applyFix` likewise
writes to the raw join unconditionally. -/
theorem claim_C2_amended (env : RemEnv) (issue : Issue) (repoPath : String)
    (ms : ModelSettings) (fpath : String) (h : issue.file = some fpath) (hne : fpath ≠ "") :
    (remediateIssue env issue repoPath ms).2.head?
      = some (RemEvent.readFile (pathJoin repoPath fpath)) ∧
    (∀ (repoPath2 fixedCode : String),
      (applyFix env repoPath2 fpath fixedCode).2
        = [RemEvent.writeFile (pathJoin repoPath2 fpath)]) := by
  constructor
  · unfold remediateIssue
    rw [if_neg (by rw [h]; simp [optStrTruthy, hne])]
    rw [h]
    simp only [Option.getD_some]
    rcases hread : env.readFile (pathJoin repoPath fpath) with e | code
    · rfl
    · dsimp only
      split
      · rfl
      · split
        · rfl
        · rfl
  · intro repoPath2 fixedCode
    rfl

/-- **C2** (witness).  The amended theorem applied at a concrete issue. -/
theorem claim_C2_witness :
    (remediateIssue
      ⟨fun _ => .ok "let x = 1", fun _ _ => .ok "const x = 1", fun _ _ => .ok ()⟩
      ⟨"i2", "s1", "medium", "prefer-const", "d", some "src/app.ts", none, none, none,
        "eslint", none, none, none, none, none, none, none⟩
      "/tmp/work"
      ⟨"m1", "cfg", "ollama", "llama3", none, none, "true", 0, 0⟩).2.head?
      = some (RemEvent.readFile (pathJoin "/tmp/work" "src/app.ts")) :=
  (claim_C2_amended _ _ "/tmp/work" _ "src/app.ts" rfl (by decide)).1

/-! ## The scan orchestrator (`ScannerService`, src/server/services/scanner.ts)

Each tool stage invokes an external process (`execAsync`) and parses its
JSON output.  The process outcome and the JSON parser (a JS builtin) are
supplied by an environment.  An `execAsync` rejection carries the partial
stdout Node collected (`error.stdout`); the runners' `.catch` handlers
substitute `error.stdout || <default>`.  Every runner body is wrapped in
`try ... catch { log; return [] }`. -/

/-- Outcome of one `execAsync` call: fulfilled with stdout, or rejected
with the collected stdout (if any) and an error message. -/
inductive ExecResult where
  | ok (stdout : String)
  | err (stdout : Option String) (message : String)
deriving DecidableEq, Repr

/-- `error.stdout || default` (empty stdout is falsy). -/
def jsOrDefault (s : Option String) (d : String) : String :=
  match s with
  | some t => if t = "" then d else t
  | none => d

/-- `String.prototype.replace(target, "")` — remove the first occurrence. -/
def removeFirstAux (pre l target : List Char) : List Char :=
  match l with
  | [] => pre.reverse
  | c :: rest =>
    if target.isPrefixOf (c :: rest) then pre.reverse ++ (c :: rest).drop target.length
    else removeFirstAux (c :: pre) rest target

def jsReplaceFirst (s target : String) : String :=
  if target = "" then s else String.mk (removeFirstAux [] s.data target.data)

/-- `parseInt(s.trim()) || 0`, for the digit-prefix case. -/
def jsParseIntOr0 (s : String) : Int :=
  let digits := (jsTrim s).data.takeWhile Char.isDigit
  if digits = [] then 0
  else Int.ofNat (digits.foldl (fun acc c => acc * 10 + (c.toNat - '0'.toNat)) 0)

/-- One normalized finding (`Omit<Issue, 'id' | 'scanId'>`). -/
structure Finding where
  severity : String
  title : String
  description : String
  file : Option String
  line : Option Int
  column : Option Int
  rule : Option String
  source : String
  remediation : Option String
  cve : Option String
deriving DecidableEq, Repr

structure EsMsg where
  severity : Int
  message : String
  ruleId : Option String
  line : Option Int
  column : Option Int
deriving DecidableEq, Repr

structure EsResult where
  filePath : String
  messages : List EsMsg
deriving DecidableEq, Repr

structure NpmVuln where
  pkg : String
  severity : String
  title : Option String
  overview : Option String
  recommendation : Option String
  cwe : List String
deriving DecidableEq, Repr

structure SemgrepResult where
  checkId : String
  path : String
  extraMessage : Option String
  extraSeverity : Option String
  startLine : Option Int
  startCol : Option Int
  hasFixRegex : Bool
deriving DecidableEq, Repr

structure TrivyVuln where
  pkgName : String
  vulnerabilityId : String
  description : Option String
  severity : String
  fixedVersion : Option String
deriving DecidableEq, Repr

structure TrivyMisconfig where
  id : String
  title : String
  description : String
  severity : String
  resolution : Option String
  startLine : Option Int
deriving DecidableEq, Repr

structure TrivyResult where
  target : String
  vulnerabilities : List TrivyVuln
  misconfigurations : List TrivyMisconfig
deriving DecidableEq, Repr

structure SecretResult where
  detectorName : String
  file : Option String
  line : Option Int
deriving DecidableEq, Repr

structure BanditResult where
  issueSeverity : String
  testName : String
  issueText : String
  filename : String
  lineNumber : Option Int
  testId : String
  moreInfo : Option String
deriving DecidableEq, Repr

structure SafetyVuln where
  id : String
  summary : String
  severity : Option String
  fixedIn : Option String
  cve : Option String
deriving DecidableEq, Repr

structure SafetyResult where
  packageName : String
  vulnerability : Option SafetyVuln
deriving DecidableEq, Repr

/-- The scanner's effectful boundary: one `ExecResult` per external
process invocation, `JSON.parse`-based readers per tool output schema
(`none` models a `JSON.parse` throw or an absent payload), the filesystem
reads of the security-pattern stage, and the regex engine. -/
structure ScanEnv where
  cwd : String
  findFiles : ExecResult
  eslintExec : ExecResult
  parseEslint : String → Option (List EsResult)
  npmExec : ExecResult
  parseNpmAudit : String → Option (List NpmVuln)
  packageJsonAccessible : Bool
  secPatFindExec : ExecResult
  readFile : String → Option String
  patternTest : Nat → String → Bool
  semgrepExec : ExecResult
  parseSemgrep : String → Option (List SemgrepResult)
  trivyExec : ExecResult
  parseTrivy : String → Option (List TrivyResult)
  secretExec : ExecResult
  parseSecretLine : String → Option SecretResult
  banditExec : ExecResult
  parseBandit : String → Option (List BanditResult)
  safetyExec : ExecResult
  parseSafety : String → Option (List SafetyResult)

/-- `getESLintRemediation`: the rule table with its default. -/
def getESLintRemediation (ruleId : Option String) : String :=
  match ruleId with
  | some "react-hooks/exhaustive-deps" => "Add missing dependencies to the useEffect dependency array"
  | some "prefer-const" => "Change let to const for variables that are never reassigned"
  | some "no-unused-vars" => "Remove unused variables or add underscore prefix"
  | some "no-console" => "Remove console statements in production code"
  | some "eqeqeq" => "Use strict equality (===) instead of loose equality (==)"
  | _ => "Review and fix the ESLint rule violation"

/-- `runESLint` (lines 101-137): `.catch` substitutes
`error.stdout || '[]'`; a `JSON.parse` throw or a `validatePath` throw for
any reported path is caught by the outer `catch`, yielding `[]` for the
whole stage. -/
def eslintFindings (env : ScanEnv) (directory : String) : List Finding :=
  let stdout := match env.eslintExec with
    | .ok out => out
    | .err s _ => jsOrDefault s "[]"
  match env.parseEslint stdout with
  | none => []
  | some results =>
    let pairs := results.flatMap (fun r => r.messages.map (fun m => (r, m)))
    if pairs.all (fun rm => (validatePathJs env.cwd directory rm.1.filePath).toOption.isSome)
    then
      pairs.filterMap (fun rm =>
        (validatePathJs env.cwd directory rm.1.filePath).toOption.map (fun vp =>
          ⟨eslintSeverity rm.2.severity, rm.2.message,
            "ESLint rule violation: " ++ jsStrOr rm.2.ruleId "unknown",
            some (jsReplaceFirst vp directory), rm.2.line, rm.2.column, rm.2.ruleId,
            "eslint", some (getESLintRemediation rm.2.ruleId), none⟩))
    else []

/-- `runNpmAudit` (lines 139-178): check `package.json` (a `validatePath`
or `fs.access` failure is caught, yielding `[]`), then
`npm audit --json` with default `'{"vulnerabilities": {}}'`. -/
def npmAuditFindings (env : ScanEnv) (directory : String) : List Finding :=
  match validatePathJs env.cwd directory (pathJoin directory "package.json") with
  | .error _ => []
  | .ok _ =>
    if ¬ env.packageJsonAccessible then []
    else
      let stdout := match env.npmExec with
        | .ok out => out
        | .err s _ => jsOrDefault s "\x7b\"vulnerabilities\": \x7b\x7d\x7d"
      match env.parseNpmAudit stdout with
      | none => []
      | some vulns =>
        vulns.map (fun v =>
          ⟨mapNpmSeverity v.severity, v.pkg ++ ": " ++ jsStrOr v.title "Security vulnerability",
            jsStrOr v.overview ("Security vulnerability in " ++ v.pkg), some "package.json",
            none, none, none, "npm-audit",
            some (jsStrOr v.recommendation ("Update " ++ v.pkg ++ " to a secure version")),
            jsStrOrNull v.cwe.head?⟩)

/-- The four hard-coded security patterns: id, severity, title,
description, remediation. -/
def secPatterns : List (Nat × String × String × String × String) :=
  [(0, "high", "Use of eval() function",
      "The eval() function can execute arbitrary JavaScript code and poses security risks",
      "Avoid using eval(). Consider safer alternatives like JSON.parse() or specific parsing functions"),
    (1, "medium", "Potential XSS vulnerability with innerHTML",
      "Setting innerHTML with user input can lead to cross-site scripting attacks",
      "Use textContent or properly sanitize HTML content before setting innerHTML"),
    (2, "medium", "Use of document.write",
      "document.write can be dangerous and is not recommended",
      "Use modern DOM manipulation methods instead of document.write"),
    (3, "low", "Potential hardcoded password",
      "File contains the word \"password\" which might indicate hardcoded credentials",
      "Ensure passwords are not hardcoded in source code")]

/-- `analyzeSecurityPatterns` (lines 180-254): a failing `find` aborts the
stage with `[]`; an unreadable file, or a file whose path fails
`validatePath` (the throw is caught by the inner per-file `catch`), is
skipped. -/
def securityPatternsFindings (env : ScanEnv) (directory : String) : List Finding :=
  match env.secPatFindExec with
  | .err _ _ => []
  | .ok fileList =>
    let files := (jsSplitLines (jsTrim fileList)).filter (fun fn => fn ≠ "")
    files.flatMap (fun fn =>
      match env.readFile fn with
      | none => []
      | some content =>
        let hits := secPatterns.flatMap (fun pat =>
          ((jsSplitLines content).enum).filterMap (fun il =>
            if env.patternTest pat.1 il.2 then some (pat, il.1) else none))
        match validatePathJs env.cwd directory fn with
        | .ok vp =>
          hits.map (fun hit =>
            ⟨hit.1.2.1, hit.1.2.2.1, hit.1.2.2.2.1,
              some (jsReplaceFirst vp directory), some (Int.ofNat hit.2 + 1), none, none,
              "security-patterns", some hit.1.2.2.2.2, none⟩)
        | .error _ => [])

/-- `runSemgrep` (lines 256-293): default `'[]'`; a parse or
`validatePath` throw yields `[]` for the stage. -/
def semgrepFindings (env : ScanEnv) (directory : String) : List Finding :=
  let stdout := match env.semgrepExec with
    | .ok out => out
    | .err s _ => jsOrDefault s "[]"
  match env.parseSemgrep stdout with
  | none => []
  | some results =>
    if results.all (fun r => (validatePathJs env.cwd directory r.path).toOption.isSome) then
      results.filterMap (fun r =>
        (validatePathJs env.cwd directory r.path).toOption.map (fun vp =>
          ⟨mapSemgrepSeverity (jsStrOr r.extraSeverity "INFO"),
            jsStrOr r.extraMessage r.checkId,
            "Semgrep finding: " ++ jsStrOr r.extraMessage "Security issue detected",
            some (jsReplaceFirst vp directory), jsIntOrNull r.startLine,
            jsIntOrNull r.startCol, some r.checkId, "semgrep",
            some (if r.hasFixRegex then "Apply suggested fix"
              else "Review and remediate based on rule documentation"), none⟩))
    else []

/-- `runTrivy` (lines 295-353): default `'{"Results": []}'`; the reported
`Target` is stored as the file without validation. -/
def trivyFindings (env : ScanEnv) (_directory : String) : List Finding :=
  let stdout := match env.trivyExec with
    | .ok out => out
    | .err s _ => jsOrDefault s "\x7b\"Results\": []\x7d"
  match env.parseTrivy stdout with
  | none => []
  | some results =>
    results.flatMap (fun res =>
      res.vulnerabilities.map (fun v =>
        ⟨mapTrivySeverity v.severity, v.pkgName ++ ": " ++ v.vulnerabilityId,
          jsStrOr v.description ("Vulnerability in " ++ v.pkgName), some res.target, none,
          none, some v.vulnerabilityId, "trivy",
          some (if optStrTruthy v.fixedVersion then
              "Update to version " ++ v.fixedVersion.getD ""
            else "Update to a patched version"),
          if jsStartsWith v.vulnerabilityId "CVE-" then some v.vulnerabilityId else none⟩)
      ++ res.misconfigurations.map (fun m =>
        ⟨mapTrivySeverity m.severity, m.title, m.description, some res.target,
          jsIntOrNull m.startLine, none, some m.id, "trivy",
          some (jsStrOr m.resolution "Fix configuration issue"), none⟩))

/-- `runSecretScan` (lines 355-397): default `''`; empty stdout yields no
findings, otherwise each JSON line with the required fields becomes a
high-severity finding (malformed lines are skipped). -/
def secretScanFindings (env : ScanEnv) (_directory : String) : List Finding :=
  let stdout := match env.secretExec with
    | .ok out => out
    | .err s _ => jsOrDefault s ""
  if stdout = "" then []
  else
    ((jsSplitLines stdout).filter (fun l => jsTrim l ≠ "")).filterMap (fun line =>
      (env.parseSecretLine line).map (fun r =>
        ⟨"high", "Secret detected: " ++ r.detectorName,
          "Potential secret or credential found: " ++ r.detectorName,
          some (jsStrOr r.file "Unknown file"), jsIntOrNull r.line, none,
          some r.detectorName, "secret-scan",
          some "Remove the secret from code and rotate credentials if compromised", none⟩))

/-- `runBandit` (lines 399-433): default `'{"results": []}'`; a parse or
`validatePath` throw yields `[]` for the stage. -/
def banditFindings (env : ScanEnv) (directory : String) : List Finding :=
  let stdout := match env.banditExec with
    | .ok out => out
    | .err s _ => jsOrDefault s "\x7b\"results\": []\x7d"
  match env.parseBandit stdout with
  | none => []
  | some results =>
    if results.all (fun r => (validatePathJs env.cwd directory r.filename).toOption.isSome)
    then
      results.filterMap (fun r =>
        (validatePathJs env.cwd directory r.filename).toOption.map (fun vp =>
          ⟨mapBanditSeverity r.issueSeverity, r.testName, r.issueText,
            some (jsReplaceFirst vp directory), r.lineNumber, none, some r.testId, "bandit",
            some (jsStrOr r.moreInfo "Review and fix the security issue"), none⟩))
    else []

/-- `runSafety` (lines 435-472): default `'[]'`; entries without a
`vulnerability` payload are skipped. -/
def safetyFindings (env : ScanEnv) (_directory : String) : List Finding :=
  let stdout := match env.safetyExec with
    | .ok out => out
    | .err s _ => jsOrDefault s "[]"
  match env.parseSafety stdout with
  | none => []
  | some results =>
    results.filterMap (fun r =>
      r.vulnerability.map (fun v =>
        ⟨mapSafetySeverity (jsStrOr v.severity "UNKNOWN"), r.packageName ++ ": " ++ v.id,
          v.summary, some "requirements.txt / setup.py", none, none, some v.id, "safety",
          some (if optStrTruthy v.fixedIn then
              "Update " ++ r.packageName ++ " to version " ++ v.fixedIn.getD ""
            else "Update " ++ r.packageName ++ " to a secure version"),
          jsStrOrNull v.cve⟩))

/-- `runDeepAnalysis` (lines 474-478): a placeholder returning no
findings. -/
def deepAnalysisFindings (_env : ScanEnv) (_directory : String) : List Finding := []

/-- The `scanOptions` flags. -/
structure ScanOptions where
  eslint : Bool
  npmAudit : Bool
  securityPatterns : Bool
  semgrep : Bool
  trivy : Bool
  secretScan : Bool
  bandit : Bool
  safety : Bool
  deepAnalysis : Bool
deriving DecidableEq, Repr

structure ScanSummary where
  high : Nat
  medium : Nat
  low : Nat
deriving DecidableEq, Repr

structure ScanResult where
  issues : List Finding
  filesScanned : Int
  summary : ScanSummary
deriving DecidableEq, Repr

/-- The aggregated issue list of `scanDirectory`: the enabled stages'
findings concatenated in the fixed stage order. -/
def scanIssues (env : ScanEnv) (directory : String) (options : ScanOptions) : List Finding :=
  (if options.eslint then eslintFindings env directory else [])
    ++ (if options.npmAudit then npmAuditFindings env directory else [])
    ++ (if options.securityPatterns then securityPatternsFindings env directory else [])
    ++ (if options.semgrep then semgrepFindings env directory else [])
    ++ (if options.trivy then trivyFindings env directory else [])
    ++ (if options.secretScan then secretScanFindings env directory else [])
    ++ (if options.bandit then banditFindings env directory else [])
    ++ (if options.safety then safetyFindings env directory else [])
    ++ (if options.deepAnalysis then deepAnalysisFindings env directory else [])

/-- `ScannerService.scanDirectory` (lines 22-99): count files (a failure
here is rethrown as `Scan failed: ...`), run the enabled stages in order,
and return the aggregate with the severity summary. -/
def scanDirectory (env : ScanEnv) (directory : String) (options : ScanOptions) :
    Except String ScanResult :=
  match env.findFiles with
  | .err _ msg => .error ("Scan failed: " ++ msg)
  | .ok fileCount =>
    let issues := scanIssues env directory options
    .ok ⟨issues, jsParseIntOr0 fileCount,
      ⟨(issues.filter (fun i => i.severity = "high")).length,
        (issues.filter (fun i => i.severity = "medium")).length,
        (issues.filter (fun i => i.severity = "low")).length⟩⟩

/-- **C5** (confirmed).  Tool stages are isolated: once the initial file
count succeeds, `scanDirectory` always returns a normal `ScanResult` whose
issue list is the concatenation of the enabled stages' findings — no tool
failure is ever raised to the caller — and a stage whose external process
fails without usable output (missing binary, crash, or timeout before any
report was produced) contributes zero findings while all other stages'
findings still appear.  The `parse*` hypotheses pin down `JSON.parse` on
the literal fallback strings the runners substitute. -/
theorem claim_C5_stage_isolation (env : ScanEnv) (directory : String) (options : ScanOptions)
    (out : String) (hfind : env.findFiles = .ok out)
    (hpe : env.parseEslint "[]" = some [] ∨ env.parseEslint "[]" = none)
    (hpn : env.parseNpmAudit "\x7b\"vulnerabilities\": \x7b\x7d\x7d" = some []
      ∨ env.parseNpmAudit "\x7b\"vulnerabilities\": \x7b\x7d\x7d" = none)
    (hps : env.parseSemgrep "[]" = some [] ∨ env.parseSemgrep "[]" = none)
    (hpt : env.parseTrivy "\x7b\"Results\": []\x7d" = some []
      ∨ env.parseTrivy "\x7b\"Results\": []\x7d" = none)
    (hpb : env.parseBandit "\x7b\"results\": []\x7d" = some []
      ∨ env.parseBandit "\x7b\"results\": []\x7d" = none)
    (hpsa : env.parseSafety "[]" = some [] ∨ env.parseSafety "[]" = none) :
    scanDirectory env directory options =
      .ok ⟨scanIssues env directory options, jsParseIntOr0 out,
        ⟨((scanIssues env directory options).filter (fun i => i.severity = "high")).length,
          ((scanIssues env directory options).filter (fun i => i.severity = "medium")).length,
          ((scanIssues env directory options).filter (fun i => i.severity = "low")).length⟩⟩ ∧
    (∀ m, env.eslintExec = .err none m → eslintFindings env directory = []) ∧
    (∀ m, env.npmExec = .err none m → npmAuditFindings env directory = []) ∧
    (∀ m, env.secPatFindExec = .err none m → securityPatternsFindings env directory = []) ∧
    (∀ m, env.semgrepExec = .err none m → semgrepFindings env directory = []) ∧
    (∀ m, env.trivyExec = .err none m → trivyFindings env directory = []) ∧
    (∀ m, env.secretExec = .err none m → secretScanFindings env directory = []) ∧
    (∀ m, env.banditExec = .err none m → banditFindings env directory = []) ∧
    (∀ m, env.safetyExec = .err none m → safetyFindings env directory = []) := by
  refine ⟨?_, ?_, ?_, ?_, ?_, ?_, ?_, ?_, ?_⟩
  · unfold scanDirectory
    rw [hfind]
  · intro m hm
    unfold eslintFindings
    rw [hm]
    show (match env.parseEslint (jsOrDefault none "[]") with
      | none => []
      | some results => _) = ([] : List Finding)
    rcases hpe with hpe | hpe <;> rw [show jsOrDefault none "[]" = "[]" from rfl, hpe]
    simp
  · intro m hm
    unfold npmAuditFindings
    rcases validatePathJs env.cwd directory (pathJoin directory "package.json") with e | p
    · rfl
    · by_cases hacc : env.packageJsonAccessible
      · simp only [hacc, not_true, if_neg, ite_false, if_false]
        rw [hm]
        show (match env.parseNpmAudit (jsOrDefault none "\x7b\"vulnerabilities\": \x7b\x7d\x7d") with
          | none => []
          | some vulns => _) = ([] : List Finding)
        rcases hpn with hpn | hpn <;>
          rw [show jsOrDefault none "\x7b\"vulnerabilities\": \x7b\x7d\x7d"
              = "\x7b\"vulnerabilities\": \x7b\x7d\x7d" from rfl, hpn]
        simp
      · simp [hacc]
  · intro m hm
    unfold securityPatternsFindings
    rw [hm]
  · intro m hm
    unfold semgrepFindings
    rw [hm]
    show (match env.parseSemgrep (jsOrDefault none "[]") with
      | none => []
      | some results => _) = ([] : List Finding)
    rcases hps with hps | hps <;> rw [show jsOrDefault none "[]" = "[]" from rfl, hps]
    simp
  · intro m hm
    unfold trivyFindings
    rw [hm]
    show (match env.parseTrivy (jsOrDefault none "\x7b\"Results\": []\x7d") with
      | none => []
      | some results => _) = ([] : List Finding)
    rcases hpt with hpt | hpt <;>
      rw [show jsOrDefault none "\x7b\"Results\": []\x7d" = "\x7b\"Results\": []\x7d" from rfl, hpt]
    simp
  · intro m hm
    unfold secretScanFindings
    rw [hm]
    rfl
  · intro m hm
    unfold banditFindings
    rw [hm]
    show (match env.parseBandit (jsOrDefault none "\x7b\"results\": []\x7d") with
      | none => []
      | some results => _) = ([] : List Finding)
    rcases hpb with hpb | hpb <;>
      rw [show jsOrDefault none "\x7b\"results\": []\x7d" = "\x7b\"results\": []\x7d" from rfl, hpb]
    simp
  · intro m hm
    unfold safetyFindings
    rw [hm]
    show (match env.parseSafety (jsOrDefault none "[]") with
      | none => []
      | some results => _) = ([] : List Finding)
    rcases hpsa with hpsa | hpsa <;> rw [show jsOrDefault none "[]" = "[]" from rfl, hpsa]
    simp

/-- An environment in which every external tool is missing (each exec call
rejects with no output) but the file count succeeded. -/
def allToolsFailEnv : ScanEnv :=
  ⟨"/cwd", .ok "42", .err none "spawn eslint ENOENT", fun _ => none,
    .err none "spawn npm ENOENT", fun _ => none, true,
    .err none "spawn find ENOENT", fun _ => none, fun _ _ => false,
    .err none "spawn semgrep ENOENT", fun _ => none,
    .err none "spawn trivy ENOENT", fun _ => none,
    .err none "spawn trufflehog ENOENT", fun _ => none,
    .err none "spawn bandit ENOENT", fun _ => none,
    .err none "spawn safety ENOENT", fun _ => none⟩

/-- All tools enabled. -/
def allScanOptions : ScanOptions := ⟨true, true, true, true, true, true, true, true, true⟩

/-- **C5** (witness).  The isolation theorem applied to the concrete
all-tools-missing environment: the scan still completes normally. -/
theorem claim_C5_witness :
    scanDirectory allToolsFailEnv "/repo" allScanOptions =
      .ok ⟨scanIssues allToolsFailEnv "/repo" allScanOptions, jsParseIntOr0 "42",
        ⟨((scanIssues allToolsFailEnv "/repo" allScanOptions).filter
            (fun i => i.severity = "high")).length,
          ((scanIssues allToolsFailEnv "/repo" allScanOptions).filter
            (fun i => i.severity = "medium")).length,
          ((scanIssues allToolsFailEnv "/repo" allScanOptions).filter
            (fun i => i.severity = "low")).length⟩⟩ ∧
    eslintFindings allToolsFailEnv "/repo" = [] :=
  ⟨(claim_C5_stage_isolation allToolsFailEnv "/repo" allScanOptions "42" rfl
      (Or.inr rfl) (Or.inr rfl) (Or.inr rfl) (Or.inr rfl) (Or.inr rfl) (Or.inr rfl)).1,
    (claim_C5_stage_isolation allToolsFailEnv "/repo" allScanOptions "42" rfl
      (Or.inr rfl) (Or.inr rfl) (Or.inr rfl) (Or.inr rfl) (Or.inr rfl) (Or.inr rfl)).2.1
      "spawn eslint ENOENT" rfl⟩

end RepoScan
